import Mathlib

/-!
Verification of the retrieval core of the rag-ui repository.

JavaScript strings are modeled as lists of characters (`Str`), machine
floats as real numbers (`ℝ`), JS `Map`s as functions, and the file-system
side effects of the index builders as explicit operation traces.  Each
definition is a direct transcription of the corresponding TypeScript
function; doc comments name the source file and symbol.
-/

/-- JS strings modeled as lists of (UTF-16-style) characters. -/
abbrev Str := List Char

namespace JsStr

/-- Whitespace class: approximation of JS `\s` (and of the characters
removed by `String.prototype.trim`) restricted to the ASCII whitespace
actually occurring in the modeled inputs. -/
def isWsChar (c : Char) : Bool :=
  c = ' ' || c = '\t' || c = '\n' || c = '\r' || c = '\x0b' || c = '\x0c'

/-- Characters matched by the regex metacharacter `.` (anything except a
line terminator). -/
def isDotChar (c : Char) : Bool :=
  !(c = '\n' || c = '\r')

/-- JS `String.prototype.trimEnd`. -/
def trimEndL (s : Str) : Str :=
  (s.reverse.dropWhile isWsChar).reverse

/-- JS `String.prototype.trimStart`. -/
def trimStartL (s : Str) : Str :=
  s.dropWhile isWsChar

/-- JS `String.prototype.trim`. -/
def trimL (s : Str) : Str :=
  trimStartL (trimEndL s)

/-- JS `s.split(sep)` for a single-character separator: split at every
occurrence, keeping empty pieces. -/
def splitIf (p : Char → Bool) : Str → List Str
  | [] => [[]]
  | c :: rest =>
    let r := splitIf p rest
    if p c then [] :: r
    else match r with
      | [] => [[c]]
      | h :: t => (c :: h) :: t

/-- JS `s.split("\n")`. -/
def splitChar (sep : Char) (s : Str) : List Str :=
  splitIf (fun c => c = sep) s

/-- JS `Array.prototype.join` with a one-character separator. -/
def joinChar (sep : Char) : List Str → Str
  | [] => []
  | [s] => s
  | s :: rest => s ++ sep :: joinChar sep rest

/-- JS `Array.prototype.join` with an arbitrary separator string. -/
def joinSep (sep : Str) : List Str → Str
  | [] => []
  | [s] => s
  | s :: rest => s ++ sep ++ joinSep sep rest

/-- JS `raw.replace(/\r\n/g, "\n")`. -/
def replCRLF : Str → Str
  | '\r' :: '\n' :: rest => '\n' :: replCRLF rest
  | c :: rest => c :: replCRLF rest
  | [] => []

/-- Helper for substring search: does `big` start with `small`? -/
def listStartsWith : Str → Str → Bool
  | _, [] => true
  | [], _ :: _ => false
  | a :: as, b :: bs => a = b && listStartsWith as bs

/-- JS `big.includes(small)` (substring containment). -/
def containsSub : Str → Str → Bool
  | [], small => small.isEmpty
  | c :: cs, small => listStartsWith (c :: cs) small || containsSub cs small

/-- JS `sourcePath.split(/[\\/]/).pop() || sourcePath` (basename). -/
def basenameOf (s : Str) : Str :=
  let parts := splitIf (fun c => c = '/' || c = '\\') s
  match parts.getLast? with
  | some last => if last = [] then s else last
  | none => s

/-- Model of `path.dirname`: everything before the final path separator. -/
def dirnameOf (s : Str) : Str :=
  let parts := splitIf (fun c => c = '/' || c = '\\') s
  joinChar '/' (parts.dropLast)

/-- Decimal rendering of a natural number (for template strings such as
`${order}`). -/
def natToStr (n : ℕ) : Str :=
  (toString n).toList

end JsStr

namespace HeadingRx

open JsStr

/-- ASCII uppercase letter, the class `[A-Z]`. -/
def isUpperAZ (c : Char) : Bool := 'A' ≤ c && c ≤ 'Z'

/-- ASCII digit, the class `\d`. -/
def isDigit09 (c : Char) : Bool := '0' ≤ c && c ≤ '9'

/-- Tail pattern `\s+.+` anchored to the end of the string: some split of
`rest` into one or more whitespace characters followed by one or more
`.`-matchable characters. -/
def wsThenRest (rest : Str) : Bool :=
  (List.range' 1 rest.length).any fun k =>
    (rest.take k).all isWsChar && decide (rest.drop k ≠ []) && (rest.drop k).all isDotChar

/-- First alternative of `HEADING_RX`: `#+\s+.+`. -/
def matchHashHeading (s : Str) : Bool :=
  let h := (s.takeWhile (fun c => c = '#')).length
  decide (0 < h) && wsThenRest (s.drop h)

/-- Second alternative: `[A-Z][A-Z0-9 ]{3,}$` (ALL-CAPS line of length at
least 4). -/
def matchAllCaps (s : Str) : Bool :=
  match s with
  | [] => false
  | c :: rest =>
    isUpperAZ c && decide (3 ≤ rest.length) &&
      rest.all (fun d => isUpperAZ d || isDigit09 d || d = ' ')

/-- Third alternative: `.+:$` (line ending in a colon). -/
def matchColonLine (s : Str) : Bool :=
  decide (2 ≤ s.length) && decide (s.getLast? = some ':') && (s.dropLast).all isDotChar

/-- Number pattern `\d+(\.\d+)*`: splitting on `.` gives nonempty
all-digit groups. -/
def numberedHead (s : Str) : Bool :=
  decide (s ≠ []) && (splitChar '.' s).all fun g => decide (g ≠ []) && g.all isDigit09

/-- Fourth alternative: `\d+(\.\d+)*\s+.+`. -/
def matchNumbered (s : Str) : Bool :=
  (List.range' 1 s.length).any fun m =>
    numberedHead (s.take m) && wsThenRest (s.drop m)

/-- Decidable transcription of `HEADING_RX` from `src/lib/rag/chunk.ts`
and `scripts/build-index.ts` (the two literals denote the same regular
language): markdown heading, ALL-CAPS line, colon-terminated line, or
numbered heading. -/
def isHeading (s : Str) : Bool :=
  matchHashHeading s || matchAllCaps s || matchColonLine s || matchNumbered s

end HeadingRx

section HeadingSanity

example : HeadingRx.isHeading "## Title".toList = true := by decide

example : HeadingRx.isHeading "hi".toList = false := by decide

example : HeadingRx.isHeading "1.2 Intro".toList = true := by decide

example : HeadingRx.isHeading "Titel:".toList = true := by decide

example : HeadingRx.isHeading "HOOFDSTUK 1".toList = true := by decide

example : HeadingRx.isHeading "hello world".toList = false := by decide

end HeadingSanity

namespace ChunkTs

open JsStr HeadingRx

/-- Chunk record from `src/lib/rag/chunk.ts`. -/
structure Chunk where
  id : Str
  source_name : Str
  source_path : Str
  -- field `section` of the source record (`section` is a Lean keyword)
  sect : Option Str
  text : Str
  order : ℕ
deriving DecidableEq

instance : Inhabited Chunk := ⟨⟨[], [], [], none, [], 0⟩⟩

/-- Heading/text block accumulated by the chunkers. -/
structure Block where
  headingTrail : List Str
  text : Str
deriving DecidableEq

/-- Flush of the line buffer: `buf.join("\n").trim()`, pushed as a block
when non-empty (`pushBuf` in `chunk.ts`, `flush` in `build-index.ts`). -/
def pushBufB (blocks : List Block) (trail : List Str) (buf : List Str) : List Block :=
  let text := trimL (joinChar '\n' buf)
  if text = [] then blocks else blocks ++ [⟨trail, text⟩]

/-- JS `s.replace(/^#+\s*/, "")`: strip leading `#` run and the
whitespace after it (no-op when the line does not start with `#`). -/
def stripHashWs (s : Str) : Str :=
  match s with
  | '#' :: _ => (s.dropWhile (fun c => c = '#')).dropWhile isWsChar
  | _ => s

/-- JS `h.replace(/[#\d\.\s]/g, "").length` as a Bool: does the cleaned
heading keep any character outside `#`, digits, `.` and whitespace? -/
def keepsNonFiller (h : Str) : Bool :=
  (h.filter (fun c => !(c = '#' || isDigit09 c || c = '.' || isWsChar c))).length ≠ 0

/-- Heading-trail update shared by both chunkers: push the cleaned
heading when it keeps substance, capping the trail at 3 entries
(oldest dropped). -/
def pushTrail (trail : List Str) (h : Str) : List Str :=
  if keepsNonFiller h then
    let t := trail ++ [h]
    if 3 < t.length then t.tail else t
  else trail

/-- One line of the block-building phase, parameterized by the cleaning
applied to a detected heading (`chunk.ts` trims the stripped heading,
`build-index.ts` does not). -/
def blockStep (clean : Str → Str) (st : List Block × List Str × List Str) (ln : Str) :
    List Block × List Str × List Str :=
  let (blocks, trail, buf) := st
  let s := trimEndL ln
  if isHeading s then
    (pushBufB blocks trail buf, pushTrail trail (clean s), [])
  else
    (blocks, trail, buf ++ [ln])

/-- Block-building phase: classify each line, flush text runs at each
heading, and flush the final buffer. -/
def mkBlocks (clean : Str → Str) (lines : List Str) : List Block :=
  let (blocks, trail, buf) := lines.foldl (blockStep clean) ([], [], [])
  pushBufB blocks trail buf

/-- Heading cleaning in `chunk.ts`: strip markers, then trim. -/
def cleanTs (s : Str) : Str := trimL (stripHashWs s)

/-- JS `trail.join(" > ") || undefined`. -/
def joinTrail (trail : List Str) : Option Str :=
  let j := joinSep " > ".toList trail
  if j = [] then none else some j

/-- Mutable state of the bundling loop in `chunkStructured`. -/
structure BState where
  chunks : List Chunk
  order : ℕ
  acc : List Str
  accLen : ℕ
  cur : Option Str

/-- The `emit` closure of `chunk.ts`'s `chunkStructured`: trim the
accumulated bundle and push it as a chunk when non-empty.  The SHA-1
used for the id is abstracted as the parameter `sha1f` (the hash itself
is not modeled). -/
def emitTs (sha1f : Str → Str) (sourcePath : Str) (st : BState) : BState :=
  let text := trimL (joinChar '\n' st.acc)
  if text = [] then st
  else
    { st with
      chunks := st.chunks ++
        [{ id := sha1f (sourcePath ++ "::".toList ++ natToStr st.order ++ "::".toList ++
              st.cur.getD [] ++ "::".toList ++ text.take 64)
           source_name := basenameOf sourcePath
           source_path := sourcePath
           sect := st.cur
           text := text
           order := st.order }]
      order := st.order + 1 }

/-- Overlap reseeding shared by both chunkers: keep the trailing
`overlap` characters of the just-emitted bundle as the seed of the next
one. -/
def reseed (overlap : ℕ) (st : BState) : BState :=
  if 0 < overlap then
    let joined := joinChar '\n' st.acc
    let tl := joined.drop (joined.length - overlap)
    { st with acc := [tl], accLen := tl.length }
  else
    { st with acc := [], accLen := 0 }

/-- One block of the bundling loop of `chunk.ts`'s `chunkStructured`
(overflow check uses `+ 1` for the joining newline). -/
def bundleStepTs (sha1f : Str → Str) (sourcePath : Str) (target overlap : ℕ)
    (st : BState) (b : Block) : BState :=
  let blockSection := joinTrail b.headingTrail
  let piece := b.text
  let st :=
    if st.acc ≠ [] ∧ target < st.accLen + piece.length + 1 then
      let st := emitTs sha1f sourcePath st
      let st := reseed overlap st
      { st with cur := blockSection }
    else if st.acc = [] then { st with cur := blockSection }
    else st
  { st with acc := st.acc ++ [piece], accLen := st.accLen + piece.length + 1 }

/-- Initial `currentSection`: `blocks[0]?.headingTrail.join(" > ") || undefined`. -/
def initialSection (blocks : List Block) : Option Str :=
  match blocks with
  | [] => none
  | b :: _ => joinTrail b.headingTrail

/-- The section-aware chunker `chunkStructured` from
`src/lib/rag/chunk.ts` (the one with SHA-1 ids and no minimum-length
floor).  `sha1f` abstracts the `sha1` helper. -/
def chunkStructured (sha1f : Str → Str) (raw : Str) (sourcePath : Str)
    (targetChars : ℕ := 1200) (overlapChars : ℕ := 200) : List Chunk :=
  let lines := splitChar '\n' (replCRLF raw)
  let blocks := mkBlocks cleanTs lines
  let st0 : BState := ⟨[], 0, [], 0, initialSection blocks⟩
  let st := blocks.foldl (bundleStepTs sha1f sourcePath targetChars overlapChars) st0
  let st := if st.acc ≠ [] then emitTs sha1f sourcePath st else st
  st.chunks

/-- The `smartChunk` wrapper from `src/lib/rag/chunk.ts`: structured
chunking, keeping only the texts. -/
def smartChunk (sha1f : Str → Str) (raw : Str) (targetChars : ℕ := 1200)
    (overlapChars : ℕ := 200) (sourcePath : Str := "__memory__".toList) : List Str :=
  (chunkStructured sha1f raw sourcePath targetChars overlapChars).map (·.text)

end ChunkTs

section ChunkTsSanity

example :
    (ChunkTs.chunkStructured (fun s => s) "hi".toList "p".toList 1200 200).map
        (fun c => c.text) = ["hi".toList] := by decide

example :
    (ChunkTs.chunkStructured (fun s => s) "hello world".toList "d/f.txt".toList 1800 200).map
        (fun c => (c.text, c.source_name, c.order)) =
      [("hello world".toList, "f.txt".toList, 0)] := by decide

end ChunkTsSanity

namespace BuildIndex

open JsStr HeadingRx ChunkTs

/-- Build configuration constants of `scripts/build-index.ts`. -/
def CHUNK_CHAR_TARGET : ℕ := 1200

/-- Overlap constant of `scripts/build-index.ts`. -/
def CHUNK_CHAR_OVERLAP : ℕ := 220

/-- Minimum chunk size of `scripts/build-index.ts`. -/
def MIN_CHARS_PER_CHUNK : ℕ := 120

/-- Embedding batch size of `scripts/build-index.ts`. -/
def BATCH : ℕ := 64

/-- The `normalizeWs` helper of `scripts/build-index.ts`: normalize line
endings, trim each line's end, and trim the whole text. -/
def normalizeWs (s : Str) : Str :=
  trimL (joinChar '\n' ((splitChar '\n' (replCRLF s)).map trimEndL))

/-- Heading cleaning in `build-index.ts`: strip markers only (line 103,
no trim, unlike `chunk.ts`). -/
def clean004 (s : Str) : Str := stripHashWs s

/-- Chunk constructor of `build-index.ts` (id is `` `${srcName}::${order}` ``). -/
def mkChunk004 (sourcePath : Str) (sect : Option Str) (text : Str) (order : ℕ) : Chunk :=
  { id := basenameOf sourcePath ++ "::".toList ++ natToStr order
    source_name := basenameOf sourcePath
    source_path := sourcePath
    sect := sect
    text := text
    order := order }

/-- State of the inner sub-split loop of `build-index.ts` (the branch for
blocks larger than 1.5 × target). -/
structure SubSt where
  out : List Chunk
  order : ℕ
  cur : List Str
  curLen : ℕ

/-- Push half of the `flushCur` closure: push the trimmed accumulation
when it reaches the minimum floor (`cur` untouched). -/
def flushCurPush (sourcePath : Str) (sect : Option Str) (st : SubSt) : SubSt :=
  let t := trimL (joinChar '\n' st.cur)
  if t ≠ [] ∧ MIN_CHARS_PER_CHUNK ≤ t.length then
    { st with out := st.out ++ [mkChunk004 sourcePath sect t st.order], order := st.order + 1 }
  else st

/-- Seed half of the `flushCur` closure: reseed `cur` with the overlap
tail of the just-flushed accumulation. -/
def flushCurSeed (overlap : ℕ) (st : SubSt) : SubSt :=
  if 0 < overlap then
    let tl := (joinChar '\n' st.cur).drop ((joinChar '\n' st.cur).length - overlap)
    { st with cur := [tl], curLen := tl.length }
  else
    { st with cur := [], curLen := 0 }

/-- The `flushCur` closure: push the trimmed accumulation when it reaches
the minimum floor, then reseed with the overlap tail (the push does not
modify `cur`, so seeding after pushing reads the old accumulation, as in
the source). -/
def flushCur (sourcePath : Str) (sect : Option Str) (overlap : ℕ) (st : SubSt) : SubSt :=
  flushCurSeed overlap (flushCurPush sourcePath sect st)

/-- One line of the sub-split loop. -/
def subStep (sourcePath : Str) (sect : Option Str) (target overlap : ℕ)
    (st : SubSt) (l : Str) : SubSt :=
  let st :=
    if target < st.curLen + l.length + 1 ∧ st.cur ≠ [] then
      flushCur sourcePath sect overlap st
    else st
  { st with cur := st.cur ++ [l], curLen := st.curLen + l.length + 1 }

/-- Final push of the sub-split loop (guarded by the floor, no reseed). -/
def subFinal (sourcePath : Str) (sect : Option Str) (st : SubSt) : SubSt :=
  if st.cur ≠ [] then
    let t := trimL (joinChar '\n' st.cur)
    if t ≠ [] ∧ MIN_CHARS_PER_CHUNK ≤ t.length then
      { st with out := st.out ++ [mkChunk004 sourcePath sect t st.order], order := st.order + 1 }
    else st
  else st

/-- Sub-split of an oversized block by greedy line accumulation. -/
def subSplit (sourcePath : Str) (sect : Option Str) (target overlap : ℕ)
    (out : List Chunk) (order : ℕ) (piece : Str) : List Chunk × ℕ :=
  let lines := splitChar '\n' piece
  let st := lines.foldl (subStep sourcePath sect target overlap) ⟨out, order, [], 0⟩
  let st := subFinal sourcePath sect st
  (st.out, st.order)

/-- The `emit` closure of `build-index.ts`'s `chunkStructured`: push the
trimmed bundle only when it reaches the 120-character floor. -/
def emit004 (sourcePath : Str) (st : BState) : BState :=
  let text := trimL (joinChar '\n' st.acc)
  if text ≠ [] ∧ MIN_CHARS_PER_CHUNK ≤ text.length then
    { st with
      chunks := st.chunks ++ [mkChunk004 sourcePath st.cur text st.order]
      order := st.order + 1 }
  else st

/-- One block of the bundling loop of `build-index.ts`'s
`chunkStructured`: oversized blocks (more than 1.5 × target) are
sub-split on their own, bypassing the bundle; the overflow check uses
`+ 2`. -/
def bundleStep004 (sourcePath : Str) (target overlap : ℕ) (st : BState) (b : Block) : BState :=
  let blockSection := joinTrail b.headingTrail
  let piece := b.text
  if 3 * target < 2 * piece.length then
    let (out, order) := subSplit sourcePath blockSection target overlap st.chunks st.order piece
    { st with chunks := out, order := order }
  else
    let st :=
      if target < st.accLen + piece.length + 2 ∧ st.acc ≠ [] then
        let st := emit004 sourcePath st
        let st := reseed overlap st
        { st with cur := blockSection }
      else if st.acc = [] then { st with cur := blockSection }
      else st
    { st with acc := st.acc ++ [piece], accLen := st.accLen + piece.length + 2 }

/-- The `chunkStructured` chunker of `scripts/build-index.ts`
(120-character floor, `normalizeWs` preprocessing, oversized-block
sub-splitting). -/
def chunkStructured004 (raw : Str) (sourcePath : Str)
    (target : ℕ := CHUNK_CHAR_TARGET) (overlap : ℕ := CHUNK_CHAR_OVERLAP) : List Chunk :=
  let lines := splitChar '\n' (normalizeWs raw)
  let blocks := mkBlocks clean004 lines
  let st0 : BState := ⟨[], 0, [], 0, initialSection blocks⟩
  let st := blocks.foldl (bundleStep004 sourcePath target overlap) st0
  let st := if st.acc ≠ [] then emit004 sourcePath st else st
  st.chunks

/-- Sum of squares as folded by `l2` (`v.reduce((s, x) => s + x * x, 0)`). -/
def sumSqFold (v : List ℝ) : ℝ :=
  v.foldl (fun s x => s + x * x) 0

/-- The `l2` normalizer of `scripts/build-index.ts`:
`n = sqrt(Σ x²) || 1; v.map(x => x / n)` (noncomputable only through
`Real.sqrt`; all reasoning is by lemmas, never by evaluation of `sqrt`). -/
noncomputable def l2 (v : List ℝ) : List ℝ :=
  let n := Real.sqrt (sumSqFold v)
  let n1 := if n = 0 then 1 else n
  v.map (fun x => x / n1)

/-- Consecutive slices of size `k` (`chunks.slice(i, i + BATCH)` for
`i = 0, k, 2k, …`), by fuel on the list length. -/
def batchesGo {α : Type} (k : ℕ) : ℕ → List α → List (List α)
  | 0, _ => []
  | _, [] => []
  | fuel + 1, x :: xs => (x :: xs).take k :: batchesGo k fuel ((x :: xs).drop k)

/-- Batching of the embedding loop of `scripts/build-index.ts`. -/
def batchesOf {α : Type} (k : ℕ) (l : List α) : List (List α) :=
  batchesGo k l.length l

/-- The vector-building loop of `scripts/build-index.ts` `main`:
for each batch, embed the texts and push `l2`-normalized vectors.
`embedBatch` abstracts the OpenAI embeddings call (one list of vectors
per input batch, same order). -/
noncomputable def buildVectors (embedBatch : List Str → List (List ℝ)) (texts : List Str) : List (List ℝ) :=
  (batchesOf BATCH texts).foldl (fun vectors b => vectors ++ (embedBatch b).map l2) []

/-- Keys of the serialized index object of `scripts/build-index.ts`
`main` (lines 315–320): `{ model, dim, chunks, vectors }`. -/
def buildIndexOutKeys : List Str :=
  ["model".toList, "dim".toList, "chunks".toList, "vectors".toList]

end BuildIndex

section BuildIndexSanity

example :
    (BuildIndex.chunkStructured004 "hi".toList "p".toList 1200 220).map (fun c => c.text) =
      [] := by decide

example : BuildIndex.batchesOf 2 [1, 2, 3, 4, 5] = [[1, 2], [3, 4], [5]] := by decide

end BuildIndexSanity

namespace Indexer

open JsStr ChunkTs

/-- IndexItem record from `src/lib/rag/indexer.ts`. -/
structure IndexItem where
  id : Str
  source_path : Str
  source_name : Str
  chunk_index : ℕ
  text : Str
  embedding : List ℝ

/-- Per-file embedding loop of `buildIndexWeb` (lines 50–67): slice the
chunk texts into batches, embed each batch, and push one item per
returned vector, with the raw (unnormalized) embedding.  `off` is the
running batch offset `i`; `resp.data.forEach((d, j) => …)` is the zip
with the enumerated response. -/
def webItemsGo (sha1f : Str → Str) (embedBatch : List Str → List (List ℝ))
    (f : Str) (name : Str) : ℕ → List (List Str) → List IndexItem
  | _, [] => []
  | off, sl :: rest =>
    ((embedBatch sl).enum.map fun (j, d) =>
      { id := sha1f (f ++ "#".toList ++ natToStr (off + j))
        source_path := f
        source_name := name
        chunk_index := off + j
        text := sl.getD j []
        embedding := d } : List IndexItem) ++
      webItemsGo sha1f embedBatch f name (off + sl.length) rest

/-- The item-building part of `buildIndexWeb`
(`src/lib/rag/indexer.ts`): read each file, skip empty text, chunk with
`smartChunk`, embed per batch, and collect items.  The OpenAI call is
abstracted as `embedBatch`, `sha1` as `sha1f`, and `readTextGeneric` as
`readText`. -/
def buildIndexWebItems (sha1f : Str → Str) (embedBatch : List Str → List (List ℝ))
    (readText : Str → Str) (target overlap batch : ℕ) (files : List Str) : List IndexItem :=
  files.foldl
    (fun items f =>
      let txt := trimL (readText f)
      if txt = [] then items
      else
        let chunks := smartChunk sha1f txt target overlap f
        let name := basenameOf f
        items ++ webItemsGo sha1f embedBatch f name 0 (BuildIndex.batchesOf batch chunks))
    []

/-- Keys of the `RagIndex` object serialized by `buildIndexWeb`
(lines 72–77): `{ dim, items, created_at, docs_dir }`. -/
def webIndexKeys : List Str :=
  ["dim".toList, "items".toList, "created_at".toList, "docs_dir".toList]

/-- The `trimToRoughChars` helper of `src/lib/rag/indexer.ts`, on the
`text` fields (the records' other fields are untouched by the spread):
greedy inclusion under a character budget; the first overflowing text is
truncated to the remaining budget when more than 200 characters remain,
otherwise dropped; then stop. -/
def trimGo (charBudget : ℕ) : List Str → ℕ → List Str
  | [], _ => []
  | p :: rest, used =>
    if used + p.length ≤ charBudget then
      p :: trimGo charBudget rest (used + p.length)
    else
      if 200 < charBudget - used then [p.take (charBudget - used)] else []

/-- Entry point of `trimToRoughChars` (accumulator starts at 0). -/
def trimToRoughChars (arr : List Str) (charBudget : ℕ) : List Str :=
  trimGo charBudget arr 0

end Indexer

namespace Search

open JsStr

/-- RagChunk record from `src/lib/rag/search.ts` (also the `Chunk` type
of `app/api/ask/route.ts`, which has the same fields). -/
structure RagChunk where
  id : Str
  source_name : Str
  source_path : Str
  text : Str

/-- RagIndexFile record from `src/lib/rag/search.ts` (also `IndexJson`
of `app/api/ask/route.ts`). -/
structure RagIndexFile where
  model : Str
  dim : ℕ
  chunks : List RagChunk
  vectors : List (List ℝ)

/-- Validation performed by `loadIndex` (`src/lib/rag/search.ts`,
lines 59–64) on a parsed index: reject when `vectors` or `chunks` is
missing/empty, reject when `vectors[0].length !== dim`, otherwise
accept. -/
def loadIndexValidate (parsed : RagIndexFile) : Except Str RagIndexFile :=
  if parsed.vectors.length = 0 ∨ parsed.chunks.length = 0 then
    .error "Indexbestand mist vectors of chunks.".toList
  else if (parsed.vectors.getD 0 []).length ≠ parsed.dim then
    .error "Index dim komt niet overeen met vectorlengte.".toList
  else
    .ok parsed

/-- The memoizing `loadIndex` of `src/lib/rag/search.ts` with the module
state passed explicitly: `memo` is the module-level `memoIndex` before
the call; the result pairs the returned index with the state after the
call.  `resolveF` abstracts `path.resolve` and `readFs` abstracts
`fs.readFile` + `JSON.parse` (`none` = read or parse failure). -/
def loadIndexMemo (resolveF : Str → Str) (readFs : Str → Option RagIndexFile)
    (indexFilePath : Str) (memo : Option RagIndexFile) :
    Except Str (RagIndexFile × Option RagIndexFile) :=
  match memo with
  | some m => .ok (m, some m)
  | none =>
    match readFs (resolveF indexFilePath) with
    | none => .error "read or parse failure".toList
    | some parsed =>
      match loadIndexValidate parsed with
      | .error e => .error e
      | .ok v => .ok (v, some v)

/-- The token estimator of `src/lib/rag/search.ts`:
`Math.ceil(s.length / 4)`. -/
def roughTokenCount (s : Str) : ℕ :=
  (s.length + 3) / 4

/-- The picking loop of `formatContextForPrompt`
(`src/lib/rag/search.ts`, lines 96–112), on the `text` fields: greedy
inclusion under a token budget; on overflow, truncate the text to
`(budget - used) * 4` characters when that exceeds 200, else drop; then
stop. -/
def formatPick (budgetTokens : ℕ) : List Str → ℕ → List Str
  | [], _ => []
  | h :: rest, used =>
    let t := roughTokenCount h
    if used + t ≤ budgetTokens then
      h :: formatPick budgetTokens rest (used + t)
    else if 200 < (budgetTokens - used) * 4 then
      [h.take ((budgetTokens - used) * 4)]
    else []

/-- Entry point of the `formatContextForPrompt` picking loop. -/
def formatContextForPrompt (hits : List Str) (budgetTokens : ℕ) : List Str :=
  formatPick budgetTokens hits 0

end Search

namespace AskRoute

open JsStr Search

/-- Validation performed by `getIndex` in `app/api/ask/route.ts`
(lines 16–23): reject only when `chunks` or `vectors` is missing/empty
(`!cache?.chunks?.length || !cache?.vectors?.length`); no dimension or
length-equality check. -/
def getIndexValidate (cache : RagIndexFile) : Except Str RagIndexFile :=
  if cache.chunks.length = 0 ∨ cache.vectors.length = 0 then
    .error "Indexbestand ongeldig of leeg.".toList
  else
    .ok cache

end AskRoute

namespace Retrieval

open JsStr ChunkTs

/-- VectorIndex record from `src/lib/rag/retrieval.ts` (its chunk rows
have the same fields as `ChunkTs.Chunk`). -/
structure VectorIndex where
  model : Str
  dim : ℕ
  chunks : List Chunk
  vectors : List (List ℝ)

/-- JS `String.prototype.toLowerCase`, character-wise (ASCII-accurate;
the modeled inputs are ASCII). -/
def lowerStr (s : Str) : Str :=
  s.map Char.toLower

/-- Character class of the token regex `[^a-z0-9À-ɏ]+`
(complemented): lowercase ASCII letter, digit, or accented Latin. -/
def isTokenChar (c : Char) : Bool :=
  ('a' ≤ c && c ≤ 'z') || ('0' ≤ c && c ≤ '9') || (0xC0 ≤ c.toNat && c.toNat ≤ 0x24F)

/-- Tokenization shared by `makeIdf` and `kwScore`:
`s.toLowerCase().split(/[^a-z0-9À-ɏ]+/)` with empty pieces
discarded (`if (!t) …` / `.filter(Boolean)`).  Duplicates are kept, in
order. -/
def tokenize (s : Str) : List Str :=
  (splitIf (fun c => !isTokenChar c) (lowerStr s)).filter (· ≠ [])

/-- One `df.set(t, (df.get(t) || 0) + 1)` step, with the JS `Map`
modeled as its lookup-with-default-0 function. -/
def bumpTok (m : Str → ℕ) (t : Str) : Str → ℕ :=
  fun u => if u = t then m t + 1 else m u

/-- The document-frequency loop of `makeIdf`
(`src/lib/rag/retrieval.ts`, lines 12–22): per document, each distinct
token (the `seen` set skips repeats) bumps its count once. -/
def dfOfDocs (docs : List Str) : Str → ℕ :=
  docs.foldl (fun m d => ((tokenize d).dedup).foldl bumpTok m) (fun _ => 0)

/-- The `makeIdf` result (lines 23–25): a `Map` holding
`ln((N+1)/(df+1)) + 1` for every key of the df map, modeled as a lookup
function; a key is present exactly when its df count is positive. -/
noncomputable def makeIdf (docs : List Str) : Str → Option ℝ :=
  let df := dfOfDocs docs
  fun t => if df t = 0 then none else some (Real.log ((docs.length + 1) / (df t + 1)) + 1)

/-- JS `idf.get(t) || 0.5`: `undefined` (absent key) and the falsy
number `0` both fall back to the default 0.5. -/
noncomputable def orHalf (o : Option ℝ) : ℝ :=
  match o with
  | none => 0.5
  | some v => if v = 0 then 0.5 else v

/-- The `kwScore` function (lines 28–36): over the query's tokens
(duplicates included), add the idf weight of every token occurring as a
substring of the lowercased chunk text. -/
noncomputable def kwScore (q : Str) (text : Str) (idf : Str → Option ℝ) : ℝ :=
  let qt := tokenize q
  let tt := lowerStr text
  qt.foldl (fun s t => if containsSub tt t then s + orHalf (idf t) else s) 0

/-- The `dot` helper (lines 38–42): indexwise product sum over
`a.length` entries (out-of-range reads modeled as 0). -/
def dot (a b : List ℝ) : ℝ :=
  (List.range a.length).foldl (fun s i => s + a.getD i 0 * b.getD i 0) 0

/-- One entry of the `scored` array of `retrieve` (lines 93–102):
`fused = alpha * dot(qv, vectors[i]) + (1 - alpha) * tanh(0.5 * kw)`. -/
noncomputable def fusedScore (index : VectorIndex) (question : Str) (qv : List ℝ)
    (alpha : ℝ) (i : ℕ) : ℝ :=
  let idf := makeIdf (index.chunks.map (·.text))
  let sem := dot qv (index.vectors.getD i [])
  let kw := kwScore question (index.chunks.getD i default).text idf
  let kwNorm := Real.tanh (0.5 * kw)
  alpha * sem + (1 - alpha) * kwNorm

/-- Scored-index record (`{ idx, score }`). -/
structure ScoredIdx where
  idx : ℕ
  score : ℝ

/-- The full `scored` array of `retrieve`: one fused score per chunk. -/
noncomputable def retrieveScored (index : VectorIndex) (question : Str) (qv : List ℝ)
    (alpha : ℝ) : List ScoredIdx :=
  (List.range index.chunks.length).map fun i => ⟨i, fusedScore index question qv alpha i⟩

/-- Descending order on fused scores, the comparator
`(a, b) => b.score - a.score` (tie order is not load-bearing for any
claim, so stability of the JS sort need not be modeled). -/
def scoredGe (a b : ScoredIdx) : Prop := b.score ≤ a.score

noncomputable instance : DecidableRel scoredGe :=
  fun a b => inferInstanceAs (Decidable (b.score ≤ a.score))

instance : IsTotal ScoredIdx scoredGe := ⟨fun a b => le_total b.score a.score⟩

instance : IsTrans ScoredIdx scoredGe := ⟨fun _ _ _ h1 h2 => le_trans h2 h1⟩

/-- Same descending order on `(index, score)` pairs (final re-rank). -/
def pairGe (a b : ℕ × ℝ) : Prop := b.2 ≤ a.2

noncomputable instance : DecidableRel pairGe :=
  fun a b => inferInstanceAs (Decidable (b.2 ≤ a.2))

instance : IsTotal (ℕ × ℝ) pairGe := ⟨fun a b => le_total b.2 a.2⟩

instance : IsTrans (ℕ × ℝ) pairGe := ⟨fun _ _ _ h1 h2 => le_trans h2 h1⟩

/-- MMR score of candidate `i` against the already-selected set
(lines 56–62).  The non-null assertion
`items.find(it => it.idx === i)!` is modeled with default 0 (in
`retrieve` every candidate index occurs in `items`). -/
noncomputable def mmrScoreOf (items : List ScoredIdx) (vectors : List (List ℝ)) (lam : ℝ)
    (selected : List ℕ) (i : ℕ) : ℝ :=
  let rel := ((items.find? fun it => it.idx = i).map (·.score)).getD 0
  let div := selected.foldl (fun d j => max d (dot (vectors.getD i []) (vectors.getD j []))) 0
  lam * rel - (1 - lam) * div

/-- Best candidate of one MMR round: first strict maximum in iteration
order (`best = -Infinity; if (mmrScore > best) …`; with finite real
scores a nonempty candidate set always yields a winner, so `-Infinity`
is modeled by the `Option` start). -/
noncomputable def pickBest (score : ℕ → ℝ) (cands : List ℕ) : Option ℕ :=
  (cands.foldl
      (fun best i =>
        match best with
        | none => some (i, score i)
        | some (bi, bs) => if bs < score i then some (i, score i) else some (bi, bs))
      none).map (·.1)

/-- The MMR selection loop (lines 45–73); the fuel is the remaining
number of slots (`while (selected.length < K && candidates.size)`). -/
noncomputable def mmrGo (items : List ScoredIdx) (vectors : List (List ℝ)) (lam : ℝ) :
    ℕ → List ℕ → List ℕ → List ℕ
  | 0, selected, _ => selected
  | fuel + 1, selected, cands =>
    match pickBest (mmrScoreOf items vectors lam selected) cands with
    | none => selected
    | some b => mmrGo items vectors lam fuel (selected ++ [b]) (cands.erase b)

/-- The `mmr` function: candidates are the item indices as an
insertion-ordered set (`new Set(items.map(it => it.idx))`). -/
noncomputable def mmr (items : List ScoredIdx) (vectors : List (List ℝ)) (K : ℕ)
    (lam : ℝ := 0.6) : List ℕ :=
  mmrGo items vectors lam K [] ((items.map (·.idx)).dedup)

/-- JS `Set.prototype.add` on an insertion-ordered set modeled as a
duplicate-free list. -/
def addUnique (l : List ℕ) (x : ℕ) : List ℕ :=
  if x ∈ l then l else l ++ [x]

/-- Chunk lookup `index.chunks[i]`. -/
def chunkAt (chunks : List Chunk) (i : ℕ) : Chunk :=
  chunks.getD i default

/-- The `left` conditional add of the neighbor loop:
`if (left >= 0 && chunks[left].source_path === chunks[i].source_path)`. -/
def expandLeft (chunks : List Chunk) (i : ℕ) (acc : List ℕ) (w : ℕ) : List ℕ :=
  if w ≤ i ∧ (chunkAt chunks (i - w)).source_path = (chunkAt chunks i).source_path then
    addUnique acc (i - w)
  else acc

/-- The `right` conditional add of the neighbor loop:
`if (right < chunks.length && chunks[right].source_path === chunks[i].source_path)`. -/
def expandRight (chunks : List Chunk) (i : ℕ) (acc : List ℕ) (w : ℕ) : List ℕ :=
  if i + w < chunks.length ∧
      (chunkAt chunks (i + w)).source_path = (chunkAt chunks i).source_path then
    addUnique acc (i + w)
  else acc

/-- Neighbor expansion of one selected chunk (lines 109–117): add `i`,
then for each `w` in `1..neighborWindow` add `i - w` and `i + w` when in
range and of the same `source_path` as chunk `i`. -/
def expandOne (chunks : List Chunk) (W : ℕ) (acc : List ℕ) (i : ℕ) : List ℕ :=
  (List.range' 1 W).foldl
    (fun acc w => expandRight chunks i (expandLeft chunks i acc w) w)
    (addUnique acc i)

/-- The `withNeighbors` set of `retrieve`. -/
def expandNeighbors (chunks : List Chunk) (W : ℕ) (picked : List ℕ) : List ℕ :=
  picked.foldl (expandOne chunks W) []

/-- Result row of `retrieve`: `{ rank, score, ...chunk }`. -/
structure RankedChunk where
  rank : ℕ
  score : ℝ
  id : Str
  source_name : Str
  source_path : Str
  sect : Option Str
  text : Str
  order : ℕ

/-- The sorted `scored` array (`scored.sort((a, b) => b.score - a.score)`). -/
noncomputable def retrieveSorted (index : VectorIndex) (question : Str) (qv : List ℝ)
    (alpha : ℝ) : List ScoredIdx :=
  List.insertionSort scoredGe (retrieveScored index question qv alpha)

/-- The lookup `scored.find(x => x.idx === i)!.score` (`!` modeled with
default 0; in `retrieve` every looked-up index occurs in the array). -/
def lookupScore (sorted : List ScoredIdx) (i : ℕ) : ℝ :=
  ((sorted.find? fun x => x.idx = i).map (·.score)).getD 0

/-- The `finalIdx` computation of `retrieve` (lines 119–123): pair every
expanded index with its fused score, sort descending, trim to
`topK + 2`, and keep the indices. -/
noncomputable def finalIdxOf (sorted : List ScoredIdx) (withN : List ℕ) (topK : ℕ) :
    List ℕ :=
  ((List.insertionSort pairGe (withN.map fun i => (i, lookupScore sorted i))).take
    (topK + 2)).map (·.1)

/-- The `retrieve` function of `src/lib/rag/retrieval.ts` (lines
75–130), after the query embedding: `qv` is the vector returned by the
embeddings call for `question`.  Scores all chunks, sorts descending,
applies MMR to the top 40, expands neighbors, re-sorts the union by
fused score, trims to `topK + 2` and emits rows with `rank: 0`
(`// kun je later invullen`). -/
noncomputable def retrieve (index : VectorIndex) (question : Str) (qv : List ℝ)
    (topK : ℕ := 8) (neighborWindow : ℕ := 1) (alpha : ℝ := 0.7) : List RankedChunk :=
  let sorted := retrieveSorted index question qv alpha
  let picked := mmr (sorted.take 40) index.vectors topK 0.6
  let withN := expandNeighbors index.chunks neighborWindow picked
  (finalIdxOf sorted withN topK).map fun i =>
    let c := chunkAt index.chunks i
    ⟨0, lookupScore sorted i, c.id, c.source_name, c.source_path, c.sect, c.text, c.order⟩

end Retrieval

namespace SpecSide

open JsStr Retrieval

/-- Modelled from the spec: `df(t)` is the number of chunks containing
`t` at least once (as a token). -/
def specDf (texts : List Str) (t : Str) : ℕ :=
  (texts.filter fun d => t ∈ tokenize d).length

/-- Modelled from the spec: `idf(t) = ln((N+1)/(df(t)+1)) + 1`, and a
token absent from the IDF table (contained in no chunk) contributes the
default weight 0.5. -/
noncomputable def specWeight (texts : List Str) (t : Str) : ℝ :=
  if specDf texts t = 0 then 0.5
  else Real.log ((texts.length + 1) / (specDf texts t + 1)) + 1

/-- Modelled from the spec: `kw = Σ idf(t)` over the given query tokens
that are present in the chunk text. -/
noncomputable def specKw (texts : List Str) (chunkText : Str) (toks : List Str) : ℝ :=
  ((toks.filter fun t => containsSub (lowerStr chunkText) t).map (specWeight texts)).sum

/-- Claim C2's formula, as stated: fusion over the query's **distinct**
lowercase alphanumeric tokens. -/
noncomputable def specFusedDistinct (index : VectorIndex) (question : Str) (qv : List ℝ)
    (alpha : ℝ) (i : ℕ) : ℝ :=
  let texts := index.chunks.map (·.text)
  let toks := (tokenize question).dedup
  alpha * dot qv (index.vectors.getD i []) +
    (1 - alpha) * Real.tanh (0.5 * specKw texts (index.chunks.getD i default).text toks)

/-- Amended formula: fusion over the query's tokens **with
multiplicity** (every occurrence contributes). -/
noncomputable def specFusedMulti (index : VectorIndex) (question : Str) (qv : List ℝ)
    (alpha : ℝ) (i : ℕ) : ℝ :=
  let texts := index.chunks.map (·.text)
  let toks := tokenize question
  alpha * dot qv (index.vectors.getD i []) +
    (1 - alpha) * Real.tanh (0.5 * specKw texts (index.chunks.getD i default).text toks)

end SpecSide

namespace FsOps

open JsStr

/-- File-system operations issued by the index builders. -/
inductive FsOp where
  | mkdirRec (dir : Str)
  | writeFile (path content : Str)
  | rename (src dst : Str)
deriving DecidableEq

/-- Is the operation a rename? -/
def isRename : FsOp → Bool
  | .rename _ _ => true
  | _ => false

/-- Is the operation a recursive mkdir? -/
def isMkdir : FsOp → Bool
  | .mkdirRec _ => true
  | _ => false

/-- Case-insensitive `.json` suffix test (the regex `/\.json$/i`). -/
def endsWithJsonCI (s : Str) : Bool :=
  (s.reverse.take 5).reverse.map Char.toLower = ".json".toList

/-- JS `INDEX_FILE.replace(/\.json$/i, ".tmp.json")` from
`scripts/build-index.ts` line 323. -/
def tmpNameFor (indexFile : Str) : Str :=
  if endsWithJsonCI indexFile then
    indexFile.take (indexFile.length - 5) ++ ".tmp.json".toList
  else indexFile

/-- Persistence trace of `scripts/build-index.ts` `main` (lines
310–325): optional recursive mkdir of the parent directory, write of the
serialized index to the temp name, then rename of the temp file over the
target.  `dirExists` is the `fsSync.existsSync(dir)` result. -/
def buildIndexPersistOps (indexFile : Str) (json : Str) (dirExists : Bool) : List FsOp :=
  (if dirExists then [] else [.mkdirRec (dirnameOf indexFile)]) ++
    [.writeFile (tmpNameFor indexFile) json, .rename (tmpNameFor indexFile) indexFile]

/-- Persistence trace of `buildIndexWeb` (`src/lib/rag/indexer.ts`,
lines 79–80): recursive mkdir of the parent directory, then a direct
write of the serialized index to the target path — no temp file, no
rename. -/
def buildIndexWebPersistOps (outFile : Str) (json : Str) : List FsOp :=
  [.mkdirRec (dirnameOf outFile), .writeFile outFile json]

end FsOps

section Helpers

/-- Fold invariant: a property preserved by every step holds of the
result. -/
theorem foldl_inv {α σ : Type _} (P : σ → Prop) (f : σ → α → σ) :
    ∀ (l : List α) (s : σ), P s → (∀ s a, a ∈ l → P s → P (f s a)) → P (l.foldl f s)
  | [], _, h0, _ => h0
  | a :: l, s, h0, hstep =>
    foldl_inv P f l (f s a) (hstep s a (List.mem_cons_self a l) h0)
      (fun s b hb => hstep s b (List.mem_cons_of_mem a hb))

/-- Left fold of additions equals the initial value plus the sum of the
mapped list. -/
theorem foldl_add_map {α : Type _} (f : α → ℝ) :
    ∀ (l : List α) (a : ℝ), l.foldl (fun s x => s + f x) a = a + (l.map f).sum
  | [], a => by simp
  | x :: l, a => by
    rw [List.foldl_cons, foldl_add_map f l (a + f x), List.map_cons, List.sum_cons]
    ring

/-- Conditional left fold of additions equals the sum of the mapped list
with zeros at the failing entries. -/
theorem foldl_add_ite {α : Type _} (p : α → Bool) (g : α → ℝ) :
    ∀ (l : List α) (a : ℝ),
      l.foldl (fun s x => if p x then s + g x else s) a =
        a + (l.map fun x => if p x then g x else 0).sum
  | [], a => by simp
  | x :: l, a => by
    rw [List.foldl_cons, List.map_cons, List.sum_cons]
    by_cases h : p x
    · rw [if_pos h, if_pos h, foldl_add_ite p g l]; ring
    · rw [if_neg h, if_neg h, foldl_add_ite p g l]; ring

/-- Mapping over a filtered list equals mapping with zeros at the
filtered-out entries. -/
theorem sum_map_filter_eq_sum_ite {α : Type _} (p : α → Bool) (g : α → ℝ) :
    ∀ l : List α, ((l.filter p).map g).sum = (l.map fun x => if p x then g x else 0).sum
  | [] => by simp
  | x :: l => by
    by_cases h : p x <;>
      simp [List.filter_cons, h, sum_map_filter_eq_sum_ite p g l]

/-- A sum of squares is nonnegative. -/
theorem sumSq_sum_nonneg (v : List ℝ) : 0 ≤ (v.map fun x => x * x).sum := by
  apply List.sum_nonneg
  intro x hx
  obtain ⟨y, _, rfl⟩ := List.mem_map.mp hx
  exact mul_self_nonneg y

end Helpers

section ClaimC10

/-- Filesystem fixture: two paths carrying two different valid indexes. -/
def idxFileA : Search.RagIndexFile :=
  ⟨"m".toList, 1, [⟨"i".toList, "n".toList, "p".toList, "t".toList⟩], [[1]]⟩

/-- Second fixture index, distinct from `idxFileA`. -/
def idxFileB : Search.RagIndexFile :=
  ⟨"m".toList, 1, [⟨"j".toList, "n".toList, "p".toList, "u".toList⟩], [[2]]⟩

/-- Fixture filesystem mapping path "a" to `idxFileA` and "b" to
`idxFileB`. -/
def fsFixture : Str → Option Search.RagIndexFile :=
  fun p => if p = "a".toList then some idxFileA
    else if p = "b".toList then some idxFileB else none

/-- C10: `loadIndex` memoizes its result in a module-level variable that
ignores the path argument: a successful fresh call stores exactly the
returned index, and any later call — whatever its path argument and
whatever the filesystem now contains, i.e. without reading any file —
returns that first-loaded index unchanged. -/
theorem loadIndex_memoizes (resolveF : Str → Str) (readFs : Str → Option Search.RagIndexFile)
    (p : Str) (idx : Search.RagIndexFile) (st : Option Search.RagIndexFile)
    (h : Search.loadIndexMemo resolveF readFs p none = .ok (idx, st)) :
    st = some idx ∧
      ∀ (resolveF2 : Str → Str) (readFs2 : Str → Option Search.RagIndexFile) (q : Str),
        Search.loadIndexMemo resolveF2 readFs2 q (some idx) = .ok (idx, some idx) := by
  refine ⟨?_, fun _ _ _ => rfl⟩
  have hred : Search.loadIndexMemo resolveF readFs p none =
      (match readFs (resolveF p) with
       | none => Except.error "read or parse failure".toList
       | some parsed =>
         match Search.loadIndexValidate parsed with
         | .error e => .error e
         | .ok v => .ok (v, some v)) := rfl
  rw [hred] at h
  cases hr : readFs (resolveF p) with
  | none => rw [hr] at h; simp at h
  | some parsed =>
    rw [hr] at h
    cases hv : Search.loadIndexValidate parsed with
    | error e => simp [hv] at h
    | ok v =>
      simp only [hv, Except.ok.injEq, Prod.mk.injEq] at h
      obtain ⟨rfl, h2⟩ := h
      exact h2.symm

/-- Witness for C10: loading "a" caches `idxFileA`; a second call with
the different path "b" (whose file holds `idxFileB`) still returns
`idxFileA`. -/
theorem loadIndex_memoizes_witness :
    Search.loadIndexMemo id fsFixture "a".toList none = .ok (idxFileA, some idxFileA) ∧
      Search.loadIndexMemo id fsFixture "b".toList (some idxFileA) =
        .ok (idxFileA, some idxFileA) := by
  have h1 : Search.loadIndexMemo id fsFixture "a".toList none =
      .ok (idxFileA, some idxFileA) := rfl
  exact ⟨h1, (loadIndex_memoizes id fsFixture "a".toList idxFileA (some idxFileA) h1).2
    id fsFixture "b".toList⟩

end ClaimC10

section ClaimC6

/-- Index whose chunk and vector counts disagree (2 chunks, 1 vector)
while `vectors[0].length == dim` holds. -/
def badIdxLenMismatch : Search.RagIndexFile :=
  ⟨"m".toList, 1,
    [⟨"i".toList, "n".toList, "p".toList, "t".toList⟩,
     ⟨"j".toList, "n".toList, "p".toList, "u".toList⟩],
    [[1]]⟩

/-- Index whose`vectors[0].length` (1) disagrees with `dim` (5). -/
def badIdxDimMismatch : Search.RagIndexFile :=
  ⟨"m".toList, 5, [⟨"i".toList, "n".toList, "p".toList, "t".toList⟩], [[1]]⟩

/-- C6 counterexample: `loadIndex` accepts an index violating
`chunks.length == vectors.length`, and the ask route's `getIndex`
accepts an index violating `vectors[0].length == dim` — neither reader
validates both conditions. -/
theorem index_readers_skip_validation_cex :
    Search.loadIndexValidate badIdxLenMismatch = .ok badIdxLenMismatch ∧
      badIdxLenMismatch.chunks.length ≠ badIdxLenMismatch.vectors.length ∧
      AskRoute.getIndexValidate badIdxDimMismatch = .ok badIdxDimMismatch ∧
      (badIdxDimMismatch.vectors.getD 0 []).length ≠ badIdxDimMismatch.dim := by
  exact ⟨rfl, by decide, rfl, by decide⟩

/-- C6 (amended): `loadIndex` validates exactly non-emptiness of
`vectors` and `chunks` plus `vectors[0].length == dim` (never
`chunks.length == vectors.length`), rejecting otherwise, while the ask
route's `getIndex` validates only non-emptiness of `chunks` and
`vectors`. -/
theorem index_readers_validation_exact (p q : Search.RagIndexFile) :
    (Search.loadIndexValidate p = .ok p ↔
      p.vectors.length ≠ 0 ∧ p.chunks.length ≠ 0 ∧
        (p.vectors.getD 0 []).length = p.dim) ∧
    (¬ (p.vectors.length ≠ 0 ∧ p.chunks.length ≠ 0 ∧
        (p.vectors.getD 0 []).length = p.dim) →
      ∃ e, Search.loadIndexValidate p = .error e) ∧
    (AskRoute.getIndexValidate q = .ok q ↔
      q.chunks.length ≠ 0 ∧ q.vectors.length ≠ 0) ∧
    (¬ (q.chunks.length ≠ 0 ∧ q.vectors.length ≠ 0) →
      ∃ e, AskRoute.getIndexValidate q = .error e) := by
  unfold Search.loadIndexValidate AskRoute.getIndexValidate
  refine ⟨?_, ?_, ?_, ?_⟩ <;> split_ifs <;> simp_all <;> tauto

/-- Witness for C6 (amended): a well-formed one-chunk index passes
`loadIndex` validation, and an index with empty `chunks` is rejected by
the route reader. -/
theorem index_readers_validation_exact_witness :
    Search.loadIndexValidate idxFileA = .ok idxFileA ∧
      ∃ e, AskRoute.getIndexValidate ⟨"m".toList, 1, [], [[1]]⟩ = .error e := by
  constructor
  · exact (index_readers_validation_exact idxFileA idxFileA).1.mpr (by decide)
  · exact (index_readers_validation_exact idxFileA ⟨"m".toList, 1, [], [[1]]⟩).2.2.2
      (by decide)

end ClaimC6

section ClaimC5

/-- C5 counterexample: the serialized object of `scripts/build-index.ts`
has no `created_at` or `docs_dir` key (it is `{model, dim, chunks,
vectors}`), the object of `buildIndexWeb` has no `model` key, and the
`buildIndexWeb` persistence trace writes the target path directly with
no rename of a temporary file — so index builds neither all serialize
the claimed six-field object nor all write atomically. -/
theorem index_persistence_cex :
    "created_at".toList ∉ BuildIndex.buildIndexOutKeys ∧
      "docs_dir".toList ∉ BuildIndex.buildIndexOutKeys ∧
      "model".toList ∉ Indexer.webIndexKeys ∧
      (FsOps.buildIndexWebPersistOps "out/index.json".toList "{}".toList).all
        (fun op => !FsOps.isRename op) = true ∧
      FsOps.FsOp.writeFile "out/index.json".toList "{}".toList ∈
        FsOps.buildIndexWebPersistOps "out/index.json".toList "{}".toList := by
  decide

/-- C5 (amended): the script builder `scripts/build-index.ts` serializes
`{model, dim, chunks, vectors}` (without `created_at`/`docs_dir`) to a
temporary `.tmp.json` file distinct from the target and atomically
renames it over the target, never writing the target path directly; the
web builder `buildIndexWeb` serializes `{dim, items, created_at,
docs_dir}` (without `model`) directly to the target path with no
temporary file and no rename. -/
theorem index_persistence_shapes (file json : Str) (d : Bool)
    (h : FsOps.endsWithJsonCI file = true) :
    (∀ c, FsOps.FsOp.writeFile file c ∉ FsOps.buildIndexPersistOps file json d) ∧
      FsOps.tmpNameFor file ≠ file ∧
      FsOps.buildIndexPersistOps file json d =
        (if d then [] else [FsOps.FsOp.mkdirRec (JsStr.dirnameOf file)]) ++
          [FsOps.FsOp.writeFile (FsOps.tmpNameFor file) json,
           FsOps.FsOp.rename (FsOps.tmpNameFor file) file] ∧
      "model".toList ∈ BuildIndex.buildIndexOutKeys ∧
      "created_at".toList ∉ BuildIndex.buildIndexOutKeys ∧
      FsOps.buildIndexWebPersistOps file json =
        [FsOps.FsOp.mkdirRec (JsStr.dirnameOf file), FsOps.FsOp.writeFile file json] ∧
      (FsOps.buildIndexWebPersistOps file json).all (fun op => !FsOps.isRename op) = true ∧
      "created_at".toList ∈ Indexer.webIndexKeys := by
  have hlen5 : 5 ≤ file.length := by
    have hp : (file.reverse.take 5).reverse.map Char.toLower = ".json".toList := by
      rw [FsOps.endsWithJsonCI] at h
      exact of_decide_eq_true h
    have h5 : ((file.reverse.take 5).reverse.map Char.toLower).length = 5 := by
      rw [hp]
      rfl
    simp only [List.length_map, List.length_reverse, List.length_take] at h5
    omega
  have htmp : FsOps.tmpNameFor file ≠ file := by
    intro heq
    have : (FsOps.tmpNameFor file).length = file.length := by rw [heq]
    rw [FsOps.tmpNameFor, if_pos h] at this
    simp only [List.length_append, List.length_take] at this
    have : min (file.length - 5) file.length + (".tmp.json".toList).length = file.length := this
    simp only [List.length] at this
    omega
  refine ⟨?_, htmp, rfl, by decide, by decide, rfl, rfl, by decide⟩
  intro c hc
  rw [FsOps.buildIndexPersistOps] at hc
  rcases List.mem_append.mp hc with hpre | hmain
  · cases d with
    | true => simp at hpre
    | false => simp at hpre
  · rcases List.mem_cons.mp hmain with hw | hr2
    · exact htmp (congrArg (fun op => match op with
        | FsOps.FsOp.writeFile p _ => p
        | _ => []) hw).symm
    · rcases List.mem_cons.mp hr2 with hr3 | habs
      · cases hr3
      · simp at habs

/-- Witness for C5 (amended), at the default index path of
`scripts/build-index.ts`. -/
theorem index_persistence_shapes_witness :
    FsOps.FsOp.writeFile "D:/Documents/rag-local/index-web/index.json".toList "x".toList ∉
        FsOps.buildIndexPersistOps "D:/Documents/rag-local/index-web/index.json".toList
          "x".toList true ∧
      FsOps.tmpNameFor "D:/Documents/rag-local/index-web/index.json".toList ≠
        "D:/Documents/rag-local/index-web/index.json".toList := by
  have h := index_persistence_shapes "D:/Documents/rag-local/index-web/index.json".toList
    "x".toList true (by decide)
  exact ⟨h.1 "x".toList, h.2.1⟩

end ClaimC5

section ClaimC4

/-- Budget invariant of the character trimmer: starting from `used ≤
budget`, the emitted texts fit in the remaining budget. -/
theorem trimGo_sum (budget : ℕ) :
    ∀ (l : List Str) (used : ℕ), used ≤ budget →
      used + ((Indexer.trimGo budget l used).map List.length).sum ≤ budget
  | [], used, h => by simpa [Indexer.trimGo] using h
  | p :: rest, used, h => by
    rw [Indexer.trimGo]
    split_ifs with h1 h2
    · have := trimGo_sum budget rest (used + p.length) h1
      simp only [List.map_cons, List.sum_cons]
      omega
    · simp only [List.map_cons, List.map_nil, List.sum_cons, List.sum_nil, List.length_take]
      omega
    · simp only [List.map_nil, List.sum_nil]
      omega

/-- Shape invariant of the character trimmer: the output is a prefix of
the input, possibly extended by one truncation of the next text, and
truncation happens only with more than 200 characters of budget left. -/
theorem trimGo_shape (budget : ℕ) :
    ∀ (l : List Str) (used : ℕ),
      ∃ k, k ≤ l.length ∧
        (Indexer.trimGo budget l used = l.take k ∨
         ∃ n, 200 < n ∧ Indexer.trimGo budget l used = l.take k ++ [(l.getD k []).take n])
  | [], used => ⟨0, by simp [Indexer.trimGo]⟩
  | p :: rest, used => by
    rw [Indexer.trimGo]
    split_ifs with h1 h2
    · obtain ⟨k, hk, hcase⟩ := trimGo_shape budget rest (used + p.length)
      refine ⟨k + 1, by simpa using hk, ?_⟩
      rcases hcase with hl | ⟨n, hn, hr⟩
      · exact Or.inl (by simp [hl])
      · exact Or.inr ⟨n, hn, by simp [hr]⟩
    · exact ⟨0, by omega, Or.inr ⟨budget - used, h2, by simp⟩⟩
    · exact ⟨0, by omega, Or.inl (by simp)⟩

/-- Budget invariant of the token-based picker of
`formatContextForPrompt`. -/
theorem formatPick_sum (budget : ℕ) :
    ∀ (l : List Str) (used : ℕ), used ≤ budget →
      used + ((Search.formatPick budget l used).map Search.roughTokenCount).sum ≤ budget
  | [], used, h => by simpa [Search.formatPick] using h
  | p :: rest, used, h => by
    rw [Search.formatPick]
    split_ifs with h1 h2
    · have := formatPick_sum budget rest (used + Search.roughTokenCount p) h1
      simp only [List.map_cons, List.sum_cons]
      omega
    · simp only [List.map_cons, List.map_nil, List.sum_cons, List.sum_nil]
      have htk : Search.roughTokenCount (p.take ((budget - used) * 4)) ≤ budget - used := by
        rw [Search.roughTokenCount, List.length_take]
        omega
      omega
    · simp only [List.map_nil, List.sum_nil]
      omega

/-- Shape invariant of the token-based picker. -/
theorem formatPick_shape (budget : ℕ) :
    ∀ (l : List Str) (used : ℕ),
      ∃ k, k ≤ l.length ∧
        (Search.formatPick budget l used = l.take k ∨
         ∃ n, 200 < n ∧ Search.formatPick budget l used = l.take k ++ [(l.getD k []).take n])
  | [], used => ⟨0, by simp [Search.formatPick]⟩
  | p :: rest, used => by
    rw [Search.formatPick]
    split_ifs with h1 h2
    · obtain ⟨k, hk, hcase⟩ := formatPick_shape budget rest (used + Search.roughTokenCount p)
      refine ⟨k + 1, by simpa using hk, ?_⟩
      rcases hcase with hl | ⟨n, hn, hr⟩
      · exact Or.inl (by simp [hl])
      · exact Or.inr ⟨n, hn, by simp [hr]⟩
    · exact ⟨0, by omega, Or.inr ⟨(budget - used) * 4, h2, by simp⟩⟩
    · exact ⟨0, by omega, Or.inl (by simp)⟩

/-- C4: both context assemblers include passages greedily in rank order
within the budget: the accounted size of the output (characters for
`trimToRoughChars`, estimated tokens for `formatContextForPrompt`) never
exceeds the budget, and the output is a prefix of the ranked input,
possibly extended by a single truncation of the next passage, performed
only when more than the 200-character minimum usable size remains — no
lower-ranked passage ever appears out of order. -/
theorem assemble_budget_and_order (arr : List Str) (budget : ℕ) :
    (((Indexer.trimToRoughChars arr budget).map List.length).sum ≤ budget ∧
      ∃ k, k ≤ arr.length ∧
        (Indexer.trimToRoughChars arr budget = arr.take k ∨
         ∃ n, 200 < n ∧
           Indexer.trimToRoughChars arr budget = arr.take k ++ [(arr.getD k []).take n])) ∧
    (((Search.formatContextForPrompt arr budget).map Search.roughTokenCount).sum ≤ budget ∧
      ∃ k, k ≤ arr.length ∧
        (Search.formatContextForPrompt arr budget = arr.take k ∨
         ∃ n, 200 < n ∧
           Search.formatContextForPrompt arr budget = arr.take k ++ [(arr.getD k []).take n])) := by
  refine ⟨⟨?_, trimGo_shape budget arr 0⟩, ?_, formatPick_shape budget arr 0⟩
  · have := trimGo_sum budget arr 0 (Nat.zero_le budget)
    simpa [Indexer.trimToRoughChars] using this
  · have := formatPick_sum budget arr 0 (Nat.zero_le budget)
    simpa [Search.formatContextForPrompt] using this

/-- Witness for C4, at a concrete passage list and budget. -/
theorem assemble_budget_and_order_witness :
    ((Indexer.trimToRoughChars ["abcd".toList, "efgh".toList] 6).map List.length).sum ≤ 6 :=
  (assemble_budget_and_order ["abcd".toList, "efgh".toList] 6).1.1

end ClaimC4

namespace ChunkTs

/-- Accumulators of the single loop of `cosineSim`
(`src/lib/rag/chunk.ts`, lines 150–159): `(dot, na, nb)` after all
indices `0 ≤ i < a.length`, with `a[i] ?? 0` modeled as `getD _ 0`. -/
def cosParts (a b : List ℝ) : ℝ × ℝ × ℝ :=
  (List.range a.length).foldl
    (fun acc i =>
      (acc.1 + a.getD i 0 * b.getD i 0,
       acc.2.1 + a.getD i 0 * a.getD i 0,
       acc.2.2 + b.getD i 0 * b.getD i 0))
    (0, 0, 0)

/-- `cosineSim` from `src/lib/rag/chunk.ts` (lines 146–162): throw on
length mismatch, otherwise `denom > 0 ? dot / denom : 0` with
`denom = √na * √nb`. -/
noncomputable def cosineSim (a b : List ℝ) : Except Str ℝ :=
  if a.length ≠ b.length then
    .error "cosineSim: dimension mismatch".toList
  else
    .ok
      (if 0 < Real.sqrt (cosParts a b).2.1 * Real.sqrt (cosParts a b).2.2 then
        (cosParts a b).1 / (Real.sqrt (cosParts a b).2.1 * Real.sqrt (cosParts a b).2.2)
      else 0)

/-- Sum of squares `Σ xᵢ²`, the mathematical reading of `na`/`nb`. -/
def sumSqL (v : List ℝ) : ℝ := (v.map fun x => x * x).sum

/-- Pairwise dot product `Σ aᵢ bᵢ`. -/
def dotZip (a b : List ℝ) : ℝ := ((a.zip b).map fun p => p.1 * p.2).sum

end ChunkTs

section ClaimC9

/-- The single accumulator loop of `cosineSim` computes the dot product
and the two norms (for equal-length inputs). -/
theorem cosParts_aux :
    ∀ (a b : List ℝ), a.length = b.length → ∀ (init : ℝ × ℝ × ℝ),
      (List.range a.length).foldl
          (fun acc i =>
            (acc.1 + a.getD i 0 * b.getD i 0,
             acc.2.1 + a.getD i 0 * a.getD i 0,
             acc.2.2 + b.getD i 0 * b.getD i 0))
          init =
        (init.1 + ChunkTs.dotZip a b, init.2.1 + ChunkTs.sumSqL a,
          init.2.2 + ChunkTs.sumSqL b)
  | [], [], _, init => by
    simp [ChunkTs.dotZip, ChunkTs.sumSqL]
  | [], y :: b, h, init => by simp at h
  | x :: a, [], h, init => by simp at h
  | x :: a, y :: b, h, init => by
    have hlen : a.length = b.length := by simpa using h
    rw [List.length_cons, List.range_succ_eq_map, List.foldl_cons, List.foldl_map]
    simp only [List.getD_cons_succ, List.getD_cons_zero]
    rw [cosParts_aux a b hlen]
    simp only [ChunkTs.dotZip, ChunkTs.sumSqL, List.zip_cons_cons, List.map_cons,
      List.sum_cons]
    refine Prod.ext ?_ (Prod.ext ?_ ?_) <;> simp <;> ring

/-- For equal-length inputs `cosParts` is `(Σ aᵢbᵢ, Σ aᵢ², Σ bᵢ²)`. -/
theorem cosParts_eq (a b : List ℝ) (h : a.length = b.length) :
    ChunkTs.cosParts a b = (ChunkTs.dotZip a b, ChunkTs.sumSqL a, ChunkTs.sumSqL b) := by
  rw [ChunkTs.cosParts, cosParts_aux a b h (0, 0, 0)]
  simp

/-- C9: `cosineSim` raises an error exactly when its inputs have
different lengths; for equal-length inputs it is total (returns `ok`),
returns 0 whenever either vector has zero norm (the `denom > 0` guard
makes the division branch unreachable there), and otherwise returns
`dot(a,b)` divided by the product of the norms. -/
theorem cosineSim_total_and_guard (a b : List ℝ) :
    (a.length ≠ b.length → ∃ e, ChunkTs.cosineSim a b = .error e) ∧
    (a.length = b.length →
      ∃ r, ChunkTs.cosineSim a b = .ok r ∧
        ((ChunkTs.sumSqL a = 0 ∨ ChunkTs.sumSqL b = 0) → r = 0) ∧
        (ChunkTs.sumSqL a ≠ 0 → ChunkTs.sumSqL b ≠ 0 →
          r = ChunkTs.dotZip a b /
            (Real.sqrt (ChunkTs.sumSqL a) * Real.sqrt (ChunkTs.sumSqL b)))) := by
  constructor
  · intro hne
    exact ⟨_, by rw [ChunkTs.cosineSim, if_pos hne]⟩
  · intro heq
    have hna : 0 ≤ ChunkTs.sumSqL a := sumSq_sum_nonneg a
    have hnb : 0 ≤ ChunkTs.sumSqL b := sumSq_sum_nonneg b
    have hparts := cosParts_eq a b heq
    refine ⟨_, by rw [ChunkTs.cosineSim, if_neg (by omega)], ?_, ?_⟩
    · rintro (h0 | h0) <;>
        · rw [hparts]
          simp only [if_neg]
          rw [if_neg]
          simp [h0, Real.sqrt_eq_zero', h0.le]
    · intro ha hb
      rw [hparts]
      have hpa : 0 < Real.sqrt (ChunkTs.sumSqL a) := Real.sqrt_pos.mpr (lt_of_le_of_ne hna (Ne.symm ha))
      have hpb : 0 < Real.sqrt (ChunkTs.sumSqL b) := Real.sqrt_pos.mpr (lt_of_le_of_ne hnb (Ne.symm hb))
      rw [if_pos (mul_pos hpa hpb)]

/-- Witness for C9: a length mismatch raises, and a zero vector yields
similarity 0. -/
theorem cosineSim_total_and_guard_witness :
    (∃ e, ChunkTs.cosineSim [(1 : ℝ)] [(1 : ℝ), 2] = .error e) ∧
      ChunkTs.cosineSim [(0 : ℝ)] [(5 : ℝ)] = .ok 0 := by
  constructor
  · exact (cosineSim_total_and_guard [(1 : ℝ)] [(1 : ℝ), 2]).1 (by decide)
  · obtain ⟨r, hr, h0, _⟩ := (cosineSim_total_and_guard [(0 : ℝ)] [(5 : ℝ)]).2 rfl
    rw [hr, h0 (Or.inl (by norm_num [ChunkTs.sumSqL]))]

end ClaimC9

section ClaimC1

/-- The reduce in `l2` computes the sum of squares. -/
theorem sumSqFold_eq_sumSqL (v : List ℝ) : BuildIndex.sumSqFold v = ChunkTs.sumSqL v := by
  rw [BuildIndex.sumSqFold, foldl_add_map (fun x => x * x) v 0, ChunkTs.sumSqL, zero_add]

/-- `l2` of a vector with nonzero sum of squares has sum of squares 1. -/
theorem l2_unit (v : List ℝ) (hv : BuildIndex.sumSqFold v ≠ 0) :
    BuildIndex.sumSqFold (BuildIndex.l2 v) = 1 := by
  have hpos : 0 < ChunkTs.sumSqL v := by
    refine lt_of_le_of_ne (sumSq_sum_nonneg v) ?_
    rw [← sumSqFold_eq_sumSqL]
    exact Ne.symm hv
  have hsq : Real.sqrt (BuildIndex.sumSqFold v) ≠ 0 := by
    rw [sumSqFold_eq_sumSqL]
    exact ne_of_gt (Real.sqrt_pos.mpr hpos)
  rw [BuildIndex.l2]
  simp only [if_neg hsq]
  rw [sumSqFold_eq_sumSqL, ChunkTs.sumSqL, List.map_map]
  have hcongr :
      ((fun x => x * x) ∘ fun x => x / Real.sqrt (BuildIndex.sumSqFold v)) =
        fun x => x * x * (Real.sqrt (BuildIndex.sumSqFold v) *
          Real.sqrt (BuildIndex.sumSqFold v))⁻¹ := by
    funext x
    simp only [Function.comp, div_eq_mul_inv, mul_inv]
    ring
  rw [hcongr, List.sum_map_mul_right]
  have hms : Real.sqrt (BuildIndex.sumSqFold v) * Real.sqrt (BuildIndex.sumSqFold v) =
      ChunkTs.sumSqL v := by
    rw [sumSqFold_eq_sumSqL]
    exact Real.mul_self_sqrt hpos.le
  rw [hms, ← ChunkTs.sumSqL, mul_inv_cancel₀ (ne_of_gt hpos)]

/-- C1 (amended): every vector stored by the script builder
`scripts/build-index.ts` is the `l2` normalization of the embedding
returned by the service, so whenever the service returns vectors with
nonzero norm, every stored vector has norm exactly 1 in the real model
(hence within any floating-point tolerance); the web builder
`buildIndexWeb` stores raw embeddings (see the counterexample). -/
theorem buildVectors_unit_norm (embedBatch : List Str → List (List ℝ)) (texts : List Str)
    (h : ∀ b, ∀ e ∈ embedBatch b, BuildIndex.sumSqFold e ≠ 0) :
    ∀ v ∈ BuildIndex.buildVectors embedBatch texts,
      BuildIndex.sumSqFold v = 1 ∧ Real.sqrt (BuildIndex.sumSqFold v) = 1 := by
  rw [BuildIndex.buildVectors]
  refine foldl_inv (fun acc => ∀ v ∈ acc, BuildIndex.sumSqFold v = 1 ∧
    Real.sqrt (BuildIndex.sumSqFold v) = 1) _ _ [] (by simp) ?_
  intro acc bb _ hacc v hv
  rcases List.mem_append.mp hv with hl | hr
  · exact hacc v hl
  · obtain ⟨e, he, rfl⟩ := List.mem_map.mp hr
    have h1 := l2_unit e (h bb e he)
    exact ⟨h1, by rw [h1, Real.sqrt_one]⟩

/-- Witness for C1 (amended): the embedding `[3, 4]` is stored as
`l2 [3, 4]`, whose sum of squares is 1. -/
theorem buildVectors_unit_norm_witness :
    BuildIndex.sumSqFold [(3 : ℝ), 4] ≠ 0 ∧
      BuildIndex.sumSqFold (BuildIndex.l2 [(3 : ℝ), 4]) = 1 := by
  have hne : BuildIndex.sumSqFold [(3 : ℝ), 4] ≠ 0 := by
    norm_num [BuildIndex.sumSqFold]
  have hmem : BuildIndex.l2 [(3 : ℝ), 4] ∈
      BuildIndex.buildVectors (fun _ => [[(3 : ℝ), 4]]) ["t".toList] := by
    show BuildIndex.l2 [(3 : ℝ), 4] ∈ [BuildIndex.l2 [(3 : ℝ), 4]]
    simp
  refine ⟨hne, ?_⟩
  have hall : ∀ b, ∀ e ∈ (fun (_ : List Str) => [[(3 : ℝ), 4]]) b,
      BuildIndex.sumSqFold e ≠ 0 := by
    intro b e he
    rw [List.mem_singleton.mp he]
    exact hne
  exact (buildVectors_unit_norm (fun _ => [[(3 : ℝ), 4]]) ["t".toList] hall
    (BuildIndex.l2 [(3 : ℝ), 4]) hmem).1

/-- C1 counterexample: `buildIndexWeb` stores the embedding returned by
the service unchanged — with a service answering `[3]` for the single
chunk of a one-file corpus, the stored vector is `[3]`, whose norm 3 is
not within tolerance `1e-6` of 1.  So not every vector stored by a
build is L2-normalized. -/
theorem buildIndexWeb_stores_raw_cex :
    (Indexer.buildIndexWebItems (fun s => s) (fun _ => [[(3 : ℝ)]])
        (fun _ => "hello world".toList) 1800 200 64 ["f".toList]).map
        (fun it => it.embedding) = [[(3 : ℝ)]] ∧
      ¬ |Real.sqrt (BuildIndex.sumSqFold [(3 : ℝ)]) - 1| ≤ 1 / 1000000 := by
  constructor
  · rfl
  · have h9 : BuildIndex.sumSqFold [(3 : ℝ)] = 9 := by norm_num [BuildIndex.sumSqFold]
    rw [h9, show (9 : ℝ) = 3 ^ 2 by norm_num, Real.sqrt_sq (by norm_num : (0 : ℝ) ≤ 3)]
    norm_num

end ClaimC1

section ClaimC7

/-- The floor invariant on sub-split state. -/
def subFloorInv (st : BuildIndex.SubSt) : Prop :=
  ∀ c ∈ st.out, BuildIndex.MIN_CHARS_PER_CHUNK ≤ c.text.length

/-- The floor invariant on bundling state. -/
def bundleFloorInv (st : ChunkTs.BState) : Prop :=
  ∀ c ∈ st.chunks, BuildIndex.MIN_CHARS_PER_CHUNK ≤ c.text.length

/-- The non-emptiness invariant on bundling state (web chunker). -/
def bundleNonemptyInv (st : ChunkTs.BState) : Prop :=
  ∀ c ∈ st.chunks, c.text ≠ []

/-- `flushCurSeed` does not modify the output list. -/
theorem flushCurSeed_out (ov : ℕ) (st : BuildIndex.SubSt) :
    (BuildIndex.flushCurSeed ov st).out = st.out := by
  rw [BuildIndex.flushCurSeed]
  split_ifs <;> rfl

/-- `flushCurPush` only pushes chunks at or above the floor. -/
theorem flushCurPush_floor (sp : Str) (sect : Option Str) (st : BuildIndex.SubSt)
    (h : subFloorInv st) : subFloorInv (BuildIndex.flushCurPush sp sect st) := by
  simp only [subFloorInv, BuildIndex.flushCurPush] at h ⊢
  split_ifs with h1 <;> intro c hc
  · rcases List.mem_append.mp hc with hl | hr
    · exact h c hl
    · rw [List.mem_singleton.mp hr]
      exact h1.2
  · exact h c hc

/-- `flushCur` only pushes chunks at or above the floor. -/
theorem flushCur_floor (sp : Str) (sect : Option Str) (ov : ℕ) (st : BuildIndex.SubSt)
    (h : subFloorInv st) : subFloorInv (BuildIndex.flushCur sp sect ov st) := by
  intro c hc
  rw [BuildIndex.flushCur, flushCurSeed_out] at hc
  exact flushCurPush_floor sp sect st h c hc

/-- `subStep` preserves the floor invariant. -/
theorem subStep_floor (sp : Str) (sect : Option Str) (target ov : ℕ) (st : BuildIndex.SubSt)
    (l : Str) (h : subFloorInv st) :
    subFloorInv (BuildIndex.subStep sp sect target ov st l) := by
  simp only [subFloorInv, BuildIndex.subStep]
  split_ifs with h1
  · exact flushCur_floor sp sect ov st h
  · exact h

/-- `subFinal` preserves the floor invariant. -/
theorem subFinal_floor (sp : Str) (sect : Option Str) (st : BuildIndex.SubSt)
    (h : subFloorInv st) : subFloorInv (BuildIndex.subFinal sp sect st) := by
  simp only [subFloorInv, BuildIndex.subFinal] at h ⊢
  split_ifs with h1 h2 <;> intro c hc
  · rcases List.mem_append.mp hc with hl | hr
    · exact h c hl
    · rw [List.mem_singleton.mp hr]
      exact h2.2
  · exact h c hc
  · exact h c hc

/-- `subSplit` preserves the floor invariant of the chunk list. -/
theorem subSplit_floor (sp : Str) (sect : Option Str) (target ov : ℕ)
    (out : List ChunkTs.Chunk) (order : ℕ) (piece : Str)
    (h : ∀ c ∈ out, BuildIndex.MIN_CHARS_PER_CHUNK ≤ c.text.length) :
    ∀ c ∈ (BuildIndex.subSplit sp sect target ov out order piece).1,
      BuildIndex.MIN_CHARS_PER_CHUNK ≤ c.text.length := by
  rw [BuildIndex.subSplit]
  have hfold : subFloorInv ((JsStr.splitChar '\n' piece).foldl
      (BuildIndex.subStep sp sect target ov) ⟨out, order, [], 0⟩) := by
    refine foldl_inv subFloorInv _ _ _ h ?_
    intro st l _ hst
    exact subStep_floor sp sect target ov st l hst
  exact subFinal_floor sp sect _ hfold

/-- `emit004` only pushes chunks at or above the floor. -/
theorem emit004_floor (sp : Str) (st : ChunkTs.BState) (h : bundleFloorInv st) :
    bundleFloorInv (BuildIndex.emit004 sp st) := by
  simp only [bundleFloorInv, BuildIndex.emit004] at h ⊢
  split_ifs with h1 <;> intro c hc
  · rcases List.mem_append.mp hc with hl | hr
    · exact h c hl
    · rw [List.mem_singleton.mp hr]
      exact h1.2
  · exact h c hc

/-- `reseed` does not modify the chunk list. -/
theorem reseed_chunks (ov : ℕ) (st : ChunkTs.BState) :
    (ChunkTs.reseed ov st).chunks = st.chunks := by
  rw [ChunkTs.reseed]
  split_ifs <;> rfl

/-- `bundleStep004` preserves the floor invariant. -/
theorem bundleStep004_floor (sp : Str) (target ov : ℕ) (st : ChunkTs.BState)
    (b : ChunkTs.Block) (h : bundleFloorInv st) :
    bundleFloorInv (BuildIndex.bundleStep004 sp target ov st b) := by
  simp only [bundleFloorInv, BuildIndex.bundleStep004] at h ⊢
  split_ifs with h1 h2 h3
  · exact subSplit_floor sp _ target ov st.chunks st.order b.text h
  · intro c hc
    simp only [reseed_chunks] at hc
    exact emit004_floor sp st h c hc
  · exact h
  · exact h

/-- `emitTs` only pushes chunks with non-empty text. -/
theorem emitTs_nonempty (sha1f : Str → Str) (sp : Str) (st : ChunkTs.BState)
    (h : bundleNonemptyInv st) : bundleNonemptyInv (ChunkTs.emitTs sha1f sp st) := by
  simp only [bundleNonemptyInv, ChunkTs.emitTs] at h ⊢
  split_ifs with h1 <;> intro c hc
  · exact h c hc
  · rcases List.mem_append.mp hc with hl | hr
    · exact h c hl
    · rw [List.mem_singleton.mp hr]
      exact h1

/-- `bundleStepTs` preserves the non-emptiness invariant. -/
theorem bundleStepTs_nonempty (sha1f : Str → Str) (sp : Str) (target ov : ℕ)
    (st : ChunkTs.BState) (b : ChunkTs.Block) (h : bundleNonemptyInv st) :
    bundleNonemptyInv (ChunkTs.bundleStepTs sha1f sp target ov st b) := by
  simp only [bundleNonemptyInv, ChunkTs.bundleStepTs] at h ⊢
  split_ifs with h1 h2
  · intro c hc
    simp only [reseed_chunks] at hc
    exact emitTs_nonempty sha1f sp st h c hc
  · exact h
  · exact h

/-- C7 (amended): the script chunker of `scripts/build-index.ts` never
emits a chunk below the 120-character floor (`MIN_CHARS_PER_CHUNK`), for
any input and parameters; the web chunker of `src/lib/rag/chunk.ts`
drops only chunks whose trimmed text is empty, so its output never
contains an empty chunk — but it can contain non-empty chunks below the
floor (see the counterexample). -/
theorem chunkers_floor (raw sourcePath : Str) (target overlap : ℕ) (sha1f : Str → Str) :
    (∀ c ∈ BuildIndex.chunkStructured004 raw sourcePath target overlap,
      BuildIndex.MIN_CHARS_PER_CHUNK ≤ c.text.length) ∧
    (∀ c ∈ ChunkTs.chunkStructured sha1f raw sourcePath target overlap, c.text ≠ []) := by
  constructor
  · simp only [BuildIndex.chunkStructured004]
    have hfold : bundleFloorInv
        ((ChunkTs.mkBlocks BuildIndex.clean004
            (JsStr.splitChar '\n' (BuildIndex.normalizeWs raw))).foldl
          (BuildIndex.bundleStep004 sourcePath target overlap)
          ⟨[], 0, [], 0, ChunkTs.initialSection
            (ChunkTs.mkBlocks BuildIndex.clean004
              (JsStr.splitChar '\n' (BuildIndex.normalizeWs raw)))⟩) := by
      refine foldl_inv bundleFloorInv _ _ _ ?_ ?_
      · intro c hc
        simp at hc
      · intro st b _ hst
        exact bundleStep004_floor sourcePath target overlap st b hst
    split_ifs with hacc
    · exact emit004_floor sourcePath _ hfold
    · exact hfold
  · simp only [ChunkTs.chunkStructured]
    have hfold : bundleNonemptyInv
        ((ChunkTs.mkBlocks ChunkTs.cleanTs
            (JsStr.splitChar '\n' (JsStr.replCRLF raw))).foldl
          (ChunkTs.bundleStepTs sha1f sourcePath target overlap)
          ⟨[], 0, [], 0, ChunkTs.initialSection
            (ChunkTs.mkBlocks ChunkTs.cleanTs
              (JsStr.splitChar '\n' (JsStr.replCRLF raw)))⟩) := by
      refine foldl_inv bundleNonemptyInv _ _ _ ?_ ?_
      · intro c hc
        simp at hc
      · intro st b _ hst
        exact bundleStepTs_nonempty sha1f sourcePath target overlap st b hst
    split_ifs with hacc
    · exact emitTs_nonempty sha1f sourcePath _ hfold
    · exact hfold

/-- Witness for C7 (amended), at a concrete short document. -/
theorem chunkers_floor_witness :
    (∀ c ∈ BuildIndex.chunkStructured004 "hi".toList "p".toList 1200 220,
      BuildIndex.MIN_CHARS_PER_CHUNK ≤ c.text.length) ∧
    (∀ c ∈ ChunkTs.chunkStructured (fun s => s) "hi".toList "p".toList 1200 200,
      c.text ≠ []) := by
  exact ⟨(chunkers_floor "hi".toList "p".toList 1200 220 (fun s => s)).1,
    (chunkers_floor "hi".toList "p".toList 1200 200 (fun s => s)).2⟩

/-- C7 counterexample: the web chunker `chunkStructured` of
`src/lib/rag/chunk.ts` keeps the 2-character chunk "hi", far below the
repository's 120-character minimum-length floor — so the chunker output
is not free of chunks shorter than the floor. -/
theorem webChunker_keeps_short_chunks_cex :
    (ChunkTs.chunkStructured (fun s => s) "hi".toList "p".toList 1200 200).map
        (fun c => c.text.length) = [2] ∧
      2 < BuildIndex.MIN_CHARS_PER_CHUNK := by
  exact ⟨by decide, by decide⟩

end ClaimC7

section ClaimC3

/-- A chunk index is an acceptable member of the expanded selection:
it is in range, and is either itself selected or lies at order `± w`
(for some `w` in `1..W`) from a selected chunk of the same source
document. -/
def neighborOk (chunks : List ChunkTs.Chunk) (W : ℕ) (picked : List ℕ) (n : ℕ) : Prop :=
  n < chunks.length ∧
    (n ∈ picked ∨
      ∃ i ∈ picked, ∃ w ∈ List.range' 1 W,
        (Retrieval.chunkAt chunks n).source_path =
            (Retrieval.chunkAt chunks i).source_path ∧
          ((Retrieval.chunkAt chunks n).order = (Retrieval.chunkAt chunks i).order + w ∨
           (Retrieval.chunkAt chunks n).order + w = (Retrieval.chunkAt chunks i).order))

/-- `addUnique` preserves an elementwise property when the new element
satisfies it. -/
theorem addUnique_inv (P : ℕ → Prop) (l : List ℕ) (x : ℕ) (hl : ∀ n ∈ l, P n) (hx : P x) :
    ∀ n ∈ Retrieval.addUnique l x, P n := by
  intro n hn
  rw [Retrieval.addUnique] at hn
  split_ifs at hn
  · exact hl n hn
  · rcases List.mem_append.mp hn with h | h
    · exact hl n h
    · rw [List.mem_singleton.mp h]
      exact hx

/-- C3: in `retrieve`'s neighbor expansion — for any index whose
per-document orders are consistent with array positions (the data-model
invariant of built indexes: equal `source_path` forces
`order j - order k = j - k`) and any in-range selection — every member
of the expanded set is in range and is either a selected chunk or a
chunk at order `± w` (`w` in `1..neighborWindow`) from a selected chunk
with exactly the same `source_path`; no neighbor ever comes from a
different document, and no out-of-range neighbor is ever added. -/
theorem neighbor_expansion_same_doc (chunks : List ChunkTs.Chunk) (W : ℕ) (picked : List ℕ)
    (hpick : ∀ i ∈ picked, i < chunks.length)
    (hcontig : ∀ j, j < chunks.length → ∀ k, k < chunks.length →
      (Retrieval.chunkAt chunks j).source_path = (Retrieval.chunkAt chunks k).source_path →
      (Retrieval.chunkAt chunks j).order + k = (Retrieval.chunkAt chunks k).order + j) :
    ∀ n ∈ Retrieval.expandNeighbors chunks W picked, neighborOk chunks W picked n := by
  rw [Retrieval.expandNeighbors]
  refine foldl_inv (fun acc => ∀ n ∈ acc, neighborOk chunks W picked n) _ picked []
    (by simp) ?_
  intro acc i hi hacc
  rw [Retrieval.expandOne]
  refine foldl_inv (fun acc2 => ∀ n ∈ acc2, neighborOk chunks W picked n) _ _ _ ?_ ?_
  · exact addUnique_inv _ acc i hacc ⟨hpick i hi, Or.inl hi⟩
  · intro acc2 w hw hacc2
    have hleft : ∀ n ∈ Retrieval.expandLeft chunks i acc2 w, neighborOk chunks W picked n := by
      rw [Retrieval.expandLeft]
      split_ifs with hc
      · refine addUnique_inv _ acc2 (i - w) hacc2 ?_
        have hlt : i - w < chunks.length := lt_of_le_of_lt (Nat.sub_le i w) (hpick i hi)
        have horder := hcontig (i - w) hlt i (hpick i hi) hc.2
        have hiw : i - w + w = i := Nat.sub_add_cancel hc.1
        exact ⟨hlt, Or.inr ⟨i, hi, w, hw, hc.2, Or.inr (by omega)⟩⟩
      · exact hacc2
    rw [Retrieval.expandRight]
    split_ifs with hc2
    · refine addUnique_inv _ _ (i + w) hleft ?_
      have horder := hcontig (i + w) hc2.1 i (hpick i hi) hc2.2
      exact ⟨hc2.1, Or.inr ⟨i, hi, w, hw, hc2.2, Or.inl (by omega)⟩⟩
    · exact hleft

/-- Fixture for C3: document "a" with orders 0 and 1, then document "b"
with order 0. -/
def chunksC3 : List ChunkTs.Chunk :=
  [⟨"a0".toList, "a".toList, "a".toList, none, "t0".toList, 0⟩,
   ⟨"a1".toList, "a".toList, "a".toList, none, "t1".toList, 1⟩,
   ⟨"b0".toList, "b".toList, "b".toList, none, "u0".toList, 0⟩]

/-- Witness for C3: selecting chunk 1 of document "a" with window 1 adds
its in-document neighbor 0 (and not the cross-document chunk 2), and
that neighbor satisfies the same-document order `± w` property. -/
theorem neighbor_expansion_same_doc_witness :
    Retrieval.expandNeighbors chunksC3 1 [1] = [1, 0] ∧ neighborOk chunksC3 1 [1] 0 := by
  constructor
  · decide
  · exact neighbor_expansion_same_doc chunksC3 1 [1] (by decide) (by decide) 0 (by decide)

end ClaimC3

section ClaimC2

/-- The hyperbolic tangent is strictly increasing. -/
theorem tanh_lt_tanh_of_lt {x y : ℝ} (h : x < y) : Real.tanh x < Real.tanh y := by
  rw [Real.tanh_eq_sinh_div_cosh, Real.tanh_eq_sinh_div_cosh,
    div_lt_div_iff₀ (Real.cosh_pos x) (Real.cosh_pos y)]
  have hs : 0 < Real.sinh (y - x) := Real.sinh_pos_iff.mpr (sub_pos.mpr h)
  have hsub := Real.sinh_sub y x
  nlinarith [hs, hsub]

/-- Folding `bumpTok` over a duplicate-free token list bumps each count
at most once. -/
theorem bumpTok_fold (t : Str) :
    ∀ (L : List Str), L.Nodup → ∀ m : Str → ℕ,
      (L.foldl Retrieval.bumpTok m) t = m t + (if t ∈ L then 1 else 0)
  | [], _, m => by simp
  | u :: L, hnd, m => by
    have hu : u ∉ L := (List.nodup_cons.mp hnd).1
    rw [List.foldl_cons, bumpTok_fold t L (List.nodup_cons.mp hnd).2 (Retrieval.bumpTok m u)]
    by_cases htu : t = u
    · subst htu
      rw [Retrieval.bumpTok]
      simp [hu]
    · rw [Retrieval.bumpTok]
      simp [htu, List.mem_cons]

/-- The document-frequency fold counts, for each token, the number of
documents containing it. -/
theorem dfCount_fold (t : Str) :
    ∀ (docs : List Str) (m : Str → ℕ),
      (docs.foldl (fun m d => ((Retrieval.tokenize d).dedup).foldl Retrieval.bumpTok m) m) t =
        m t + (docs.filter fun d => t ∈ Retrieval.tokenize d).length
  | [], m => by simp
  | d :: ds, m => by
    rw [List.foldl_cons, dfCount_fold t ds _,
      bumpTok_fold t (Retrieval.tokenize d).dedup (List.nodup_dedup _) m, List.filter_cons]
    by_cases hd : t ∈ Retrieval.tokenize d
    · rw [if_pos (List.mem_dedup.mpr hd), if_pos (decide_eq_true hd), List.length_cons]
      omega
    · rw [if_neg (fun hm => hd (List.mem_dedup.mp hm)), if_neg (by simp [hd])]
      omega

/-- The df `Map` of `makeIdf` holds exactly the spec's `df(t)`: the
number of chunks containing `t` at least once. -/
theorem dfOfDocs_eq (docs : List Str) (t : Str) :
    Retrieval.dfOfDocs docs t = SpecSide.specDf docs t := by
  rw [Retrieval.dfOfDocs, dfCount_fold t docs (fun _ => 0), SpecSide.specDf]
  simp

/-- `df(t)` never exceeds the number of documents. -/
theorem specDf_le (docs : List Str) (t : Str) : SpecSide.specDf docs t ≤ docs.length :=
  List.length_filter_le _ _

/-- The `|| 0.5` fallback of `kwScore` computes exactly the spec weight:
absent tokens default to 0.5, and a present token's idf value
`ln((N+1)/(df+1)) + 1 ≥ 1` is never the falsy 0. -/
theorem orHalf_makeIdf (docs : List Str) (t : Str) :
    Retrieval.orHalf (Retrieval.makeIdf docs t) = SpecSide.specWeight docs t := by
  simp only [Retrieval.makeIdf]
  rw [dfOfDocs_eq, SpecSide.specWeight]
  by_cases h0 : SpecSide.specDf docs t = 0
  · rw [if_pos h0, if_pos h0]
    rfl
  · rw [if_neg h0, if_neg h0]
    simp only [Retrieval.orHalf]
    have hpos : 0 < Real.log ((docs.length + 1) / (SpecSide.specDf docs t + 1)) + 1 := by
      have hle : (1 : ℝ) ≤ (docs.length + 1) / (SpecSide.specDf docs t + 1) := by
        rw [le_div_iff₀ (by positivity)]
        have := specDf_le docs t
        have hc : (SpecSide.specDf docs t : ℝ) ≤ (docs.length : ℝ) := by exact_mod_cast this
        linarith
      have := Real.log_nonneg hle
      linarith
    rw [if_neg (ne_of_gt hpos)]

/-- `kwScore` with the `makeIdf` table equals the spec's keyword sum
over the query tokens with multiplicity. -/
theorem kwScore_eq (q text : Str) (docs : List Str) :
    Retrieval.kwScore q text (Retrieval.makeIdf docs) =
      SpecSide.specKw docs text (Retrieval.tokenize q) := by
  simp only [Retrieval.kwScore]
  rw [foldl_add_ite (fun t => JsStr.containsSub (Retrieval.lowerStr text) t)
      (fun t => Retrieval.orHalf (Retrieval.makeIdf docs t)) (Retrieval.tokenize q) 0,
    zero_add, SpecSide.specKw, sum_map_filter_eq_sum_ite]
  refine congrArg List.sum (List.map_congr_left ?_)
  intro t _
  by_cases hp : JsStr.containsSub (Retrieval.lowerStr text) t
  · rw [if_pos hp, if_pos hp, orHalf_makeIdf]
  · rw [if_neg hp, if_neg hp]

/-- C2 (amended): `retrieve` computes chunk `i`'s relevance as
`fused_i = alpha * dot(q, vectors[i]) + (1 - alpha) * tanh(0.5 * kw_i)`
with default `alpha = 0.7`, where `kw_i` sums
`idf(t) = ln((N+1)/(df(t)+1)) + 1` over the query's lowercase
alphanumeric tokens **with multiplicity** (each occurrence of a
repeated query token contributes again) that are present in chunk `i`'s
text, a token absent from the IDF table contributing the default weight
0.5 (`N` = chunk count, `df(t)` = number of chunks containing `t`). -/
theorem fused_matches_spec_multiset (index : Retrieval.VectorIndex) (question : Str)
    (qv : List ℝ) (alpha : ℝ) (i : ℕ) :
    Retrieval.fusedScore index question qv alpha i =
      SpecSide.specFusedMulti index question qv alpha i := by
  simp only [Retrieval.fusedScore, SpecSide.specFusedMulti]
  rw [kwScore_eq]

/-- Index fixture for the C2 counterexample: one chunk whose text
"a1zz" contains "zz" as a substring but not as a token. -/
def idxC2 : Retrieval.VectorIndex :=
  { model := "m".toList, dim := 1,
    chunks := [⟨"c0".toList, "f".toList, "f".toList, none, "a1zz".toList, 0⟩],
    vectors := [[1]] }

/-- C2 counterexample: on the one-chunk index `idxC2` and the query
"zz zz" (the out-of-vocabulary token "zz" twice), the code counts the
0.5 default twice (`kw = 1`), while the claimed formula over *distinct*
query tokens counts it once (`kw = 0.5`) — the fused scores differ, so
the claim's "distinct tokens" reading is false. -/
theorem fused_distinct_cex :
    Retrieval.fusedScore idxC2 "zz zz".toList [0] (0.7) 0 ≠
      SpecSide.specFusedDistinct idxC2 "zz zz".toList [0] (0.7) 0 := by
  have hc : Retrieval.fusedScore idxC2 "zz zz".toList [0] (0.7) 0 =
      0.7 * Retrieval.dot [0] [1] + (1 - 0.7) * Real.tanh (0.5 * (0 + 0.5 + 0.5)) := rfl
  have hs : SpecSide.specFusedDistinct idxC2 "zz zz".toList [0] (0.7) 0 =
      0.7 * Retrieval.dot [0] [1] + (1 - 0.7) * Real.tanh (0.5 * (0.5 + 0)) := rfl
  have hd : Retrieval.dot [(0 : ℝ)] [1] = 0 + 0 * 1 := rfl
  rw [hc, hs, hd]
  have h1 : (0.5 : ℝ) * (0 + 0.5 + 0.5) = 0.5 := by norm_num
  have h2 : (0.5 : ℝ) * (0.5 + 0) = 0.25 := by norm_num
  rw [h1, h2]
  intro h
  have h3 : Real.tanh 0.25 < Real.tanh 0.5 := tanh_lt_tanh_of_lt (by norm_num)
  nlinarith [h3, h]

end ClaimC2

section ClaimC8

/-- The scores read back along `finalIdx` are sorted descending: the
re-rank of the selected-plus-neighbors union by originally fused score. -/
theorem finalIdx_scores_sorted (sorted : List Retrieval.ScoredIdx) (withN : List ℕ)
    (topK : ℕ) :
    ((Retrieval.finalIdxOf sorted withN topK).map (Retrieval.lookupScore sorted)).Sorted
      (· ≥ ·) := by
  rw [Retrieval.finalIdxOf, List.map_map]
  have hsorted : (List.insertionSort Retrieval.pairGe
      (withN.map fun i => (i, Retrieval.lookupScore sorted i))).Sorted Retrieval.pairGe :=
    List.sorted_insertionSort Retrieval.pairGe _
  have htake : ((List.insertionSort Retrieval.pairGe
      (withN.map fun i => (i, Retrieval.lookupScore sorted i))).take
        (topK + 2)).Pairwise Retrieval.pairGe :=
    List.Pairwise.sublist (List.take_sublist (topK + 2) _) hsorted
  have hmem : ∀ p ∈ (List.insertionSort Retrieval.pairGe
      (withN.map fun i => (i, Retrieval.lookupScore sorted i))).take (topK + 2),
      (Retrieval.lookupScore sorted ∘ fun p : ℕ × ℝ => p.1) p = p.2 := by
    intro p hp
    have hp2 : p ∈ List.insertionSort Retrieval.pairGe
        (withN.map fun i => (i, Retrieval.lookupScore sorted i)) :=
      (List.take_sublist (topK + 2) _).subset hp
    obtain ⟨i, _, rfl⟩ := List.mem_map.mp ((List.mem_insertionSort Retrieval.pairGe).mp hp2)
    rfl
  rw [List.map_congr_left hmem, List.Sorted, List.pairwise_map]
  exact htake

/-- C8 (amended): `retrieve` re-ranks the union of the MMR-selected
chunks and their expansion neighbors by their originally fused score in
descending order and trims the result to `topK + 2` entries, but every
returned chunk carries the placeholder `rank` 0 (`// kun je later
invullen`); no 1-based rank is assigned. -/
theorem retrieve_rank_zero_trimmed_sorted (index : Retrieval.VectorIndex) (question : Str)
    (qv : List ℝ) (topK neighborWindow : ℕ) (alpha : ℝ) :
    (∀ r ∈ Retrieval.retrieve index question qv topK neighborWindow alpha, r.rank = 0) ∧
      (Retrieval.retrieve index question qv topK neighborWindow alpha).length ≤ topK + 2 ∧
      ((Retrieval.retrieve index question qv topK neighborWindow alpha).map
          (fun r => r.score)).Sorted (· ≥ ·) := by
  refine ⟨?_, ?_, ?_⟩
  · intro r hr
    simp only [Retrieval.retrieve] at hr
    obtain ⟨i, _, rfl⟩ := List.mem_map.mp hr
    rfl
  · simp only [Retrieval.retrieve, List.length_map, Retrieval.finalIdxOf]
    exact List.length_take_le _ _
  · have hmap : (Retrieval.retrieve index question qv topK neighborWindow alpha).map
        (fun r => r.score) =
        (Retrieval.finalIdxOf (Retrieval.retrieveSorted index question qv alpha)
          (Retrieval.expandNeighbors index.chunks neighborWindow
            (Retrieval.mmr ((Retrieval.retrieveSorted index question qv alpha).take 40)
              index.vectors topK 0.6))
          topK).map
          (Retrieval.lookupScore (Retrieval.retrieveSorted index question qv alpha)) := by
      simp only [Retrieval.retrieve, List.map_map]
      rfl
    rw [hmap]
    exact finalIdx_scores_sorted _ _ topK

/-- Index fixture for the C8 counterexample: a single chunk. -/
noncomputable def idxC8 : Retrieval.VectorIndex :=
  { model := "m".toList, dim := 1,
    chunks := [⟨"c0".toList, "f".toList, "f".toList, none, "alpha beta".toList, 0⟩],
    vectors := [[1]] }

/-- C8 counterexample: on a one-chunk index, `retrieve` returns one
chunk whose `rank` is 0, not the claimed 1-based rank 1 — the first
returned chunk does not have rank 1. -/
theorem retrieve_rank_not_one_cex :
    (Retrieval.retrieve idxC8 "".toList [1] 1 1 (7 / 10)).map (fun r => r.rank) = [0] ∧
      (Retrieval.retrieve idxC8 "".toList [1] 1 1 (7 / 10)).map (fun r => r.rank) ≠ [1] := by
  have h0 : (Retrieval.retrieve idxC8 "".toList [1] 1 1 (7 / 10)).map (fun r => r.rank) =
      [0] := rfl
  refine ⟨h0, ?_⟩
  rw [h0]
  decide

/-- Witness for C8 (amended), at the one-chunk fixture. -/
theorem retrieve_rank_zero_trimmed_sorted_witness :
    (Retrieval.retrieve idxC8 "".toList [1] 1 1 (7 / 10)).length ≤ 1 + 2 :=
  (retrieve_rank_zero_trimmed_sorted idxC8 "".toList [1] 1 1 (7 / 10)).2.1

end ClaimC8
